import Mathlib

/-!
Verification development for the ansibase repository.

The definitions below are a shallow embedding of the Python sources:
  * `src/packages/ansibase/src/ansibase/graph.py`      (GroupNode / GroupTree)
  * `src/packages/ansibase/src/ansibase/builder.py`    (InventoryBuilder)
  * `src/packages/ansibase/src/ansibase/manage/importers.py` (import engine)
  * `src/packages/ansibase/src/ansibase/manage/groups.py`, `variables.py`
  * `src/api/app/services/variable.py`, `src/ansibase-api/app/services/inventory.py`
  * `src/ansibase-api/app/crypto.py`                   (PgCrypto wrapper)

Python dictionaries are modelled as insertion-ordered association lists
(`VMap`): assignment to an existing key replaces the value in place,
assignment to a fresh key appends, and iteration follows list order,
exactly like a CPython `dict`.  The field written `variables` in Python
is called `vars` here (`variables` is reserved in Lean).
-/

/-- Insertion-ordered association list modelling a Python `dict` with
string keys. -/
abbrev VMap (α : Type) := List (String × α)

/-- `d[k]` / `d.get(k)`: the value at the first occurrence of key `k`. -/
def vmLookup {α : Type} (k : String) : VMap α → Option α
  | [] => none
  | q :: rest => if q.1 = k then some q.2 else vmLookup k rest

/-- `k in d`: key membership. -/
def vmContains {α : Type} (k : String) (m : VMap α) : Bool :=
  (vmLookup k m).isSome

/-- `d[k] = v`: replace in place if the key is present, else append. -/
def vmInsert {α : Type} (m : VMap α) (k : String) (v : α) : VMap α :=
  if vmContains k m then
    m.map (fun q => if q.1 = k then (k, v) else q)
  else
    m ++ [(k, v)]

/-- `d1.update(d2)`: fold `d1[k] = v` over the entries of `d2` in order. -/
def vmUpdate {α : Type} (m1 m2 : VMap α) : VMap α :=
  m2.foldl (fun acc q => vmInsert acc q.1 q.2) m1

/-- `list(d.keys())`. -/
def vmKeys {α : Type} (m : VMap α) : List String :=
  m.map Prod.fst

theorem vmLookup_not_mem {α : Type} {k : String} {m : VMap α}
    (h : k ∉ vmKeys m) : vmLookup k m = none := by
  induction m with
  | nil => rfl
  | cons q rest ih =>
    simp only [vmKeys, List.map_cons, List.mem_cons, not_or] at h
    have hq : q.1 ≠ k := fun e => h.1 e.symm
    simp [vmLookup, hq, ih h.2]

theorem vmLookup_map_replace {α : Type} (m : VMap α) (k : String) (v : α) :
    vmLookup k (m.map (fun q => if q.1 = k then (k, v) else q))
      = if (vmLookup k m).isSome then some v else none := by
  induction m with
  | nil => simp [vmLookup]
  | cons q rest ih =>
    obtain ⟨a, b⟩ := q
    by_cases hq : a = k
    · subst hq
      simp [vmLookup]
    · simp [vmLookup, hq, ih]

theorem vmLookup_map_replace_ne {α : Type} (m : VMap α) {k k' : String} (v : α)
    (h : k' ≠ k) :
    vmLookup k' (m.map (fun q => if q.1 = k then (k, v) else q))
      = vmLookup k' m := by
  induction m with
  | nil => rfl
  | cons q rest ih =>
    obtain ⟨a, b⟩ := q
    by_cases hq : a = k
    · subst hq
      have hk : a ≠ k' := fun e => h e.symm
      simp [vmLookup, hk, ih]
    · by_cases hq' : a = k'
      · simp [vmLookup, hq, hq', h]
      · simp [vmLookup, hq, hq', ih]

theorem vmLookup_append {α : Type} (m e : VMap α) (k : String) :
    vmLookup k (m ++ e) = (vmLookup k m <|> vmLookup k e) := by
  induction m with
  | nil => simp [vmLookup]
  | cons q rest ih =>
    obtain ⟨a, b⟩ := q
    by_cases hq : a = k
    · subst hq
      simp [vmLookup]
    · simp [vmLookup, hq, ih]

theorem vmLookup_insert_self {α : Type} (m : VMap α) (k : String) (v : α) :
    vmLookup k (vmInsert m k v) = some v := by
  unfold vmInsert
  by_cases hc : vmContains k m = true
  · rw [if_pos hc, vmLookup_map_replace]
    unfold vmContains at hc
    simp [hc]
  · rw [if_neg hc, vmLookup_append]
    unfold vmContains at hc
    have : vmLookup k m = none := by
      cases h : vmLookup k m with
      | none => rfl
      | some v' => rw [h] at hc; simp at hc
    simp [this, vmLookup]

theorem vmLookup_insert_ne {α : Type} (m : VMap α) {k k' : String} (v : α)
    (h : k' ≠ k) : vmLookup k' (vmInsert m k v) = vmLookup k' m := by
  unfold vmInsert
  by_cases hc : vmContains k m = true
  · rw [if_pos hc, vmLookup_map_replace_ne m v h]
  · rw [if_neg hc, vmLookup_append]
    have hk : k ≠ k' := fun e => h e.symm
    simp [vmLookup, hk]

theorem vmLookup_update {α : Type} (m1 m2 : VMap α) (k : String)
    (hnd : (vmKeys m2).Nodup) :
    vmLookup k (vmUpdate m1 m2) = (vmLookup k m2 <|> vmLookup k m1) := by
  induction m2 generalizing m1 with
  | nil => simp [vmUpdate, vmLookup]
  | cons q rest ih =>
    simp only [vmKeys, List.map_cons, List.nodup_cons] at hnd
    have step : vmUpdate m1 (q :: rest) = vmUpdate (vmInsert m1 q.1 q.2) rest := rfl
    rw [step, ih _ hnd.2]
    by_cases hk : q.1 = k
    · subst hk
      have hrest : vmLookup q.1 rest = none :=
        vmLookup_not_mem (by simpa [vmKeys] using hnd.1)
      simp [vmLookup, hrest, vmLookup_insert_self]
    · simp [vmLookup, hk, vmLookup_insert_ne m1 q.2 (fun e => hk e.symm)]

/-! ## graph.py : GroupNode / GroupTree -/

/-- A node of the in-memory group tree (`GroupNode` in `graph.py`).
`parent` and `children` store node ids; the Python code stores object
references, which is equivalent here because nodes are registered by id.
The `_computed_*` memo fields are omitted: they cache the functions
modelled below and never change their value. -/
structure GroupNode where
  id : Nat
  name : String
  parent : Option Nat := none
  children : List Nat := []
  vars : VMap (Option String) := []
  hosts : List String := []
deriving DecidableEq

/-- The group tree (`GroupTree` in `graph.py`): `nodes` is the id-keyed
dict in insertion order, `root` the node named "all" if any. -/
structure GroupTree where
  nodes : List GroupNode := []
  root : Option Nat := none
deriving DecidableEq

/-- `self.nodes.get(group_id)`. -/
def find_node (t : GroupTree) (gid : Nat) : Option GroupNode :=
  t.nodes.find? (fun n => n.id == gid)

/-- `group_id in self.nodes`. -/
def has_node (t : GroupTree) (gid : Nat) : Bool :=
  t.nodes.any (fun n => n.id == gid)

/-- `self.nodes[group_id] = node`: replace in place or append. -/
def put_node (t : GroupTree) (n : GroupNode) : GroupTree :=
  if has_node t n.id then
    { t with nodes := t.nodes.map (fun m => if m.id == n.id then n else m) }
  else
    { t with nodes := t.nodes ++ [n] }

/-- In-place update of the node with id `gid`. -/
def map_node (t : GroupTree) (gid : Nat) (f : GroupNode → GroupNode) : GroupTree :=
  { t with nodes := t.nodes.map (fun m => if m.id == gid then f m else m) }

/-- `GroupTree.add_group` (graph.py lines 101-134): create the node,
register it, mark it root when named "all", and attach it to its parent
only if the parent id is already registered. -/
def add_group (t : GroupTree) (gid : Nat) (name : String)
    (parentId : Option Nat) : GroupTree :=
  let t1 := put_node t { id := gid, name := name }
  let t2 := if name = "all" then { t1 with root := some gid } else t1
  match parentId with
  | none => t2
  | some pid =>
    if has_node t2 pid then
      -- parent_node.add_child(node): append the child id, set the back link
      let t3 := map_node t2 pid (fun p => { p with children := p.children ++ [gid] })
      map_node t3 gid (fun c => { c with parent := some pid })
    else
      t2

/-- `node.variables = vm` (second pass of `build_group_tree`). -/
def set_variables (t : GroupTree) (gid : Nat) (vm : VMap (Option String)) : GroupTree :=
  map_node t gid (fun n => { n with vars := vm })

/-- `GroupNode.get_all_variables` (graph.py lines 33-53): start from the
parent's effective variables (empty if no parent) and override with the
local map.  `fuel` bounds the parent-chain recursion, which in Python
terminates because `add_group` only attaches a child to a previously
inserted parent. -/
def get_all_variables (t : GroupTree) : Nat → GroupNode → VMap (Option String)
  | 0, n => vmUpdate [] n.vars
  | fuel + 1, n =>
    match n.parent with
    | none => vmUpdate [] n.vars
    | some pid =>
      match find_node t pid with
      | none => vmUpdate [] n.vars
      | some p => vmUpdate (get_all_variables t fuel p) n.vars

/-- C1: for every group node G with parent P, the effective variables of
G are P's effective variables overridden by G's local map: a key of G's
local map takes G's value, any other key takes P's effective value.  The
right-hand side depends only on pointwise lookups, hence not on the
iteration order of the maps. -/
theorem c1_get_all_variables_parent_override
    (t : GroupTree) (fuel : Nat) (g p : GroupNode) (k : String)
    (hpar : g.parent = some p.id) (hfind : find_node t p.id = some p)
    (hnd : (vmKeys g.vars).Nodup) :
    vmLookup k (get_all_variables t (fuel + 1) g)
      = (vmLookup k g.vars <|> vmLookup k (get_all_variables t fuel p)) := by
  simp only [get_all_variables, hpar, hfind]
  exact vmLookup_update _ _ _ hnd

/-- Concrete tree for the C1 witness: "all" (id 1, var region=eu) with
child "web" (id 2, var tier=front), as produced by `build_group_tree`. -/
def c1Tree : GroupTree :=
  { nodes := [{ id := 1, name := "all", parent := none, children := [2],
                vars := [("region", some "eu")], hosts := [] },
              { id := 2, name := "web", parent := some 1, children := [],
                vars := [("tier", some "front")], hosts := [] }],
    root := some 1 }

def c1All : GroupNode :=
  { id := 1, name := "all", parent := none, children := [2],
    vars := [("region", some "eu")], hosts := [] }

def c1Web : GroupNode :=
  { id := 2, name := "web", parent := some 1, children := [],
    vars := [("tier", some "front")], hosts := [] }

theorem c1_get_all_variables_parent_override_witness :
    vmLookup "region" (get_all_variables c1Tree 1 c1Web)
      = (vmLookup "region" c1Web.vars
          <|> vmLookup "region" (get_all_variables c1Tree 0 c1All)) :=
  c1_get_all_variables_parent_override c1Tree 0 c1Web c1All "region"
    rfl (by decide) (by decide)

/-- `GroupTree.build_hierarchy` (graph.py lines 142-151): despite its
docstring ("relink orphan nodes, useful if groups were added out of
order"), the loop body is `pass` — the function changes nothing. -/
def build_hierarchy (t : GroupTree) : GroupTree :=
  t

/-- The two-pass tree build of `InventoryBuilder.build_group_tree` with
the groups table read in the order (web id 2 parent 1, all id 1):
`add_group` runs in that order, then variables are attached. -/
def c2TreeChildFirst : GroupTree :=
  set_variables
    (set_variables
      (build_hierarchy (add_group (add_group {} 2 "web" (some 1)) 1 "all" none))
      1 [("region", some "eu")])
    2 []

/-- The same groups read parent first (all id 1, then web id 2 parent 1). -/
def c2TreeParentFirst : GroupTree :=
  set_variables
    (set_variables
      (build_hierarchy (add_group (add_group {} 1 "all" none) 2 "web" (some 1)))
      1 [("region", some "eu")])
    2 []

/-- C2 (code bug evidence): adding the child before its parent leaves it
permanently orphaned — `add_group` only attaches when the parent is
already registered and `build_hierarchy`'s body is `pass` — so the same
set of groups queried after all adds gives different results depending
on insertion order: "web" inherits nothing in one order and inherits
`region=eu` in the other. -/
theorem c2_add_group_order_dependent :
    (find_node c2TreeChildFirst 2).map GroupNode.parent = some none
    ∧ (find_node c2TreeParentFirst 2).map GroupNode.parent = some (some 1)
    ∧ (find_node c2TreeChildFirst 2).map
        (fun n => vmLookup "region" (get_all_variables c2TreeChildFirst 2 n))
        = some none
    ∧ (find_node c2TreeParentFirst 2).map
        (fun n => vmLookup "region" (get_all_variables c2TreeParentFirst 2 n))
        = some (some (some "eu")) := by
  decide

/-! ## builder.py : alias substitution -/

/-- `InventoryBuilder.resolve_aliases` (builder.py lines 63-80): walk the
alias pairs in order; when the alias key is absent and the source key
present, assign the source's value to the alias key (assignment to an
absent key appends). -/
def resolve_aliases {α : Type} (aliases : List (String × String))
    (m : VMap α) : VMap α :=
  aliases.foldl
    (fun resolved p =>
      if vmContains p.1 resolved then resolved
      else
        match vmLookup p.2 resolved with
        | some v => resolved ++ [(p.1, v)]
        | none => resolved)
    m

/-- One step of the `resolve_aliases` fold. -/
def resolveStep {α : Type} (resolved : VMap α) (p : String × String) : VMap α :=
  if vmContains p.1 resolved then resolved
  else
    match vmLookup p.2 resolved with
    | some v => resolved ++ [(p.1, v)]
    | none => resolved

theorem resolve_aliases_cons {α : Type} (p : String × String)
    (rest : List (String × String)) (m : VMap α) :
    resolve_aliases (p :: rest) m = resolve_aliases rest (resolveStep m p) := by
  rfl

/-- Each fold step either keeps the map or appends one alias-keyed entry. -/
theorem resolveStep_eq {α : Type} (m : VMap α) (p : String × String) :
    resolveStep m p = m ∨ ∃ v, resolveStep m p = m ++ [(p.1, v)] := by
  unfold resolveStep
  by_cases hc : vmContains p.1 m = true
  · left
    rw [if_pos hc]
  · rw [if_neg hc]
    cases hs : vmLookup p.2 m with
    | none => left; rfl
    | some v => right; exact ⟨v, rfl⟩

/-- `resolve_aliases` only appends entries, and every appended key is an
alias key of the table. -/
theorem resolve_aliases_extends {α : Type} (aliases : List (String × String))
    (m : VMap α) :
    ∃ e : VMap α, resolve_aliases aliases m = m ++ e
      ∧ ∀ q ∈ e, q.1 ∈ aliases.map Prod.fst := by
  induction aliases generalizing m with
  | nil => exact ⟨[], by simp [resolve_aliases]⟩
  | cons p rest ih =>
    rw [resolve_aliases_cons]
    obtain ⟨e1, he1, hk1⟩ := ih (resolveStep m p)
    have hmem : ∀ q ∈ e1, q.1 ∈ (p :: rest).map Prod.fst := fun q hq => by
      rw [List.map_cons]
      exact List.mem_cons_of_mem _ (hk1 q hq)
    rcases resolveStep_eq m p with h | ⟨v, h⟩
    · rw [h] at he1
      rw [h]
      exact ⟨e1, he1, hmem⟩
    · rw [h] at he1
      rw [h]
      refine ⟨(p.1, v) :: e1, ?_, ?_⟩
      · rw [he1, List.append_assoc]
        rfl
      · intro q hq
        rcases List.mem_cons.mp hq with hq | hq
        · rw [hq, List.map_cons]
          exact List.mem_cons_self _ _
        · exact hmem q hq

theorem vmContains_append_left {α : Type} (m e : VMap α) (k : String)
    (h : vmContains k m = true) : vmContains k (m ++ e) = true := by
  unfold vmContains at h ⊢
  rw [vmLookup_append]
  cases hl : vmLookup k m with
  | none => rw [hl] at h; simp at h
  | some v => simp [hl]

theorem vmContains_resolveStep {α : Type} (m : VMap α) (p : String × String)
    (k : String) (h : vmContains k m = true) :
    vmContains k (resolveStep m p) = true := by
  rcases resolveStep_eq m p with hh | ⟨v, hh⟩
  · rw [hh]; exact h
  · rw [hh]; exact vmContains_append_left m _ k h

theorem vmContains_resolve_aliases {α : Type} (aliases : List (String × String))
    (m : VMap α) (k : String) (h : vmContains k m = true) :
    vmContains k (resolve_aliases aliases m) = true := by
  obtain ⟨e, he, _⟩ := resolve_aliases_extends aliases m
  rw [he]
  exact vmContains_append_left m e k h

/-- A key that is not an alias key keeps its lookup across substitution. -/
theorem vmLookup_resolve_aliases_not_alias_key {α : Type}
    (aliases : List (String × String)) (m : VMap α) (s : String)
    (hs : s ∉ aliases.map Prod.fst) :
    vmLookup s (resolve_aliases aliases m) = vmLookup s m := by
  obtain ⟨e, he, hk⟩ := resolve_aliases_extends aliases m
  rw [he, vmLookup_append]
  have hnone : vmLookup s e = none := by
    apply vmLookup_not_mem
    intro hmem
    obtain ⟨q, hq, hq1⟩ := List.mem_map.mp hmem
    exact hs (hq1 ▸ hk q hq)
  cases hl : vmLookup s m <;> simp [hl, hnone]

/-- After one substitution pass, every alias pair is saturated: its alias
key is present or its source key is absent.  `K` abstracts the set of
alias keys (instantiated with `aliases.map Prod.fst`). -/
theorem resolve_aliases_saturated {α : Type} (K : List String)
    (aliases : List (String × String)) (m : VMap α)
    (hsrc : ∀ q ∈ aliases, q.2 ∉ K) (hkey : ∀ q ∈ aliases, q.1 ∈ K) :
    ∀ p ∈ aliases, vmContains p.1 (resolve_aliases aliases m) = true
      ∨ vmLookup p.2 (resolve_aliases aliases m) = none := by
  induction aliases generalizing m with
  | nil => intro p hp; cases hp
  | cons q rest ih =>
    intro p hp
    rw [resolve_aliases_cons]
    rcases List.mem_cons.mp hp with hpq | hp'
    · subst hpq
      by_cases hc : vmContains p.1 m = true
      · left
        exact vmContains_resolve_aliases rest _ p.1 (vmContains_resolveStep m p p.1 hc)
      · cases hs : vmLookup p.2 m with
        | some v =>
          left
          apply vmContains_resolve_aliases
          have hstep : resolveStep m p = m ++ [(p.1, v)] := by
            unfold resolveStep
            rw [if_neg hc, hs]
          rw [hstep]
          unfold vmContains
          rw [vmLookup_append]
          have hmn : vmLookup p.1 m = none := by
            unfold vmContains at hc
            cases hl : vmLookup p.1 m with
            | none => rfl
            | some w => rw [hl] at hc; simp at hc
          simp [hmn, vmLookup]
        | none =>
          right
          have hstep : resolveStep m p = m := by
            unfold resolveStep
            rw [if_neg hc, hs]
          rw [hstep]
          have hsk : p.2 ∉ rest.map Prod.fst := by
            intro hmem
            obtain ⟨r, hr, hr1⟩ := List.mem_map.mp hmem
            exact hsrc p (List.mem_cons_self _ _)
              (hr1 ▸ hkey r (List.mem_cons_of_mem _ hr))
          rw [vmLookup_resolve_aliases_not_alias_key rest m p.2 hsk]
          exact hs
    · exact ih (resolveStep m q)
        (fun r hr => hsrc r (List.mem_cons_of_mem _ hr))
        (fun r hr => hkey r (List.mem_cons_of_mem _ hr)) p hp'

/-- On a saturated map, the substitution pass is the identity. -/
theorem resolve_aliases_fixed {α : Type} (aliases : List (String × String))
    (r : VMap α)
    (h : ∀ p ∈ aliases, vmContains p.1 r = true ∨ vmLookup p.2 r = none) :
    resolve_aliases aliases r = r := by
  induction aliases with
  | nil => rfl
  | cons p rest ih =>
    rw [resolve_aliases_cons]
    have hstep : resolveStep r p = r := by
      rcases h p (List.mem_cons_self _ _) with hc | hn
      · unfold resolveStep
        rw [if_pos hc]
      · unfold resolveStep
        by_cases hc : vmContains p.1 r = true
        · rw [if_pos hc]
        · rw [if_neg hc, hn]
    rw [hstep]
    exact ih (fun q hq => h q (List.mem_cons_of_mem _ hq))

/-- C5 counterexample: with the chained alias table {a→b, b→c} (creatable,
since alias creation only rejects self-aliases) and the map {c: 0}, one
pass adds only `b`, a second pass then adds `a` — so applying
`resolve_aliases` twice differs from applying it once. -/
theorem c5_resolve_aliases_not_idempotent :
    resolve_aliases [("a", "b"), ("b", "c")]
        (resolve_aliases [("a", "b"), ("b", "c")] [("c", (0 : Nat))])
      ≠ resolve_aliases [("a", "b"), ("b", "c")] [("c", (0 : Nat))] := by
  decide

/-- C5 (amended): alias substitution is idempotent for every variable map
whenever no alias pair's source key is itself an alias key (no chained
aliases) — a second pass then changes nothing. -/
theorem c5_resolve_aliases_idempotent_without_chains {α : Type}
    (aliases : List (String × String)) (m : VMap α)
    (h : ∀ q ∈ aliases, q.2 ∉ aliases.map Prod.fst) :
    resolve_aliases aliases (resolve_aliases aliases m)
      = resolve_aliases aliases m :=
  resolve_aliases_fixed aliases _
    (resolve_aliases_saturated (aliases.map Prod.fst) aliases m h
      (fun q hq => List.mem_map_of_mem _ hq))

theorem c5_resolve_aliases_idempotent_without_chains_witness :
    (∀ q ∈ [("b", "c")], q.2 ∉ [("b", "c")].map Prod.fst)
    ∧ resolve_aliases [("b", "c")]
        (resolve_aliases [("b", "c")] [("c", (0 : Nat))])
      = resolve_aliases [("b", "c")] [("c", (0 : Nat))] :=
  ⟨by decide, c5_resolve_aliases_idempotent_without_chains _ _ (by decide)⟩

/-! ## crypto.py : the encryption boundary -/

/-- Modelled from the spec: the PostgreSQL pgcrypto functions
`pgp_sym_encrypt` / `pgp_sym_decrypt` invoked by `PgCrypto` are not part
of this repository.  Per the spec's contract for the Encryption Boundary
("decrypt(encrypt(s)) == s", failures yield an empty result), they are
modelled as an abstract symmetric scheme: a ciphertext records the key
and plaintext, and decryption returns the plaintext exactly when the
keys match.  A `Cipher` value is always a non-empty blob. -/
structure Cipher where
  key : String
  plain : String
deriving DecidableEq

def pgp_sym_encrypt (key plain : String) : Cipher :=
  { key := key, plain := plain }

def pgp_sym_decrypt (key : String) (c : Cipher) : Option String :=
  if c.key = key then some c.plain else none

/-- `PgCrypto.encrypt_value` (crypto.py lines 48-71): a falsy (empty)
cleartext yields `None` before any call; otherwise the pgcrypto call
produces the blob. -/
def encrypt_value (key plain : String) : Option Cipher :=
  if plain = "" then none else some (pgp_sym_encrypt key plain)

/-- `PgCrypto.decrypt_value` (crypto.py lines 23-46): a falsy
(`None`/empty) blob yields `None`; otherwise the pgcrypto call. -/
def decrypt_value (key : String) (enc : Option Cipher) : Option String :=
  match enc with
  | none => none
  | some c => pgp_sym_decrypt key c

/-- C6: encryption round-trips — for every non-empty string s,
decrypting its encryption under the same key returns s — and encrypting
the empty value yields no blob, so nothing is stored for it. -/
theorem c6_encrypt_value_roundtrip (key s : String) (h : s ≠ "") :
    decrypt_value key (encrypt_value key s) = some s
    ∧ encrypt_value key "" = none := by
  constructor
  · simp [encrypt_value, h, decrypt_value, pgp_sym_encrypt, pgp_sym_decrypt]
  · rfl

theorem c6_encrypt_value_roundtrip_witness :
    ("secret1" : String) ≠ ""
    ∧ (decrypt_value "k1" (encrypt_value "k1" "secret1") = some "secret1"
        ∧ encrypt_value "k1" "" = none) :=
  ⟨by decide, c6_encrypt_value_roundtrip "k1" "secret1" (by decide)⟩

/-! ## importers.py : the import engine

Database rows are modelled as lists of records; SQLAlchemy queries with
`.first()` become `List.find?`, in-place mutation of a fetched row
becomes replacement of the first matching row, and `session.add` an
append.  A single id counter stands in for the per-table sequences (only
uniqueness matters). -/

structure HostRow where
  id : Nat
  name : String
  isActive : Bool := true
deriving DecidableEq

structure GroupRow where
  id : Nat
  name : String
  parentId : Option Nat := none
deriving DecidableEq

structure VarRow where
  id : Nat
  varKey : String
  isSensitive : Bool := false
  isAnsibleBuiltin : Bool := false
  description : Option String := none
  varType : String := "string"
  defaultValue : Option String := none
  validationRegex : Option String := none
deriving DecidableEq

structure HostVarRow where
  hostId : Nat
  varId : Nat
  varValue : Option String := none
  varValueEncrypted : Option Cipher := none
deriving DecidableEq

structure GroupVarRow where
  groupId : Nat
  varId : Nat
  varValue : Option String := none
  varValueEncrypted : Option Cipher := none
deriving DecidableEq

structure HostGroupRow where
  hostId : Nat
  groupId : Nat
deriving DecidableEq

structure VariableAliasRow where
  aliasVarId : Nat
  sourceVarId : Nat
deriving DecidableEq

structure Db where
  hosts : List HostRow := []
  groups : List GroupRow := []
  vars : List VarRow := []
  hostVars : List HostVarRow := []
  groupVars : List GroupVarRow := []
  hostGroups : List HostGroupRow := []
  varAliases : List VariableAliasRow := []
  nextId : Nat := 1
deriving DecidableEq

/-- `ImportStats` (importers.py lines 31-56). -/
structure ImportStats where
  hosts_created : Nat := 0
  groups_created : Nat := 0
  variables_created : Nat := 0
  host_vars_set : Nat := 0
  group_vars_set : Nat := 0
  host_group_links : Nat := 0
deriving DecidableEq

/-- Replace the first element satisfying `p` (mutation of the row object
returned by `.first()`). -/
def replaceFirst {β : Type} (p : β → Bool) (r : β) : List β → List β
  | [] => []
  | x :: rest => if p x then r :: rest else x :: replaceFirst p r rest

def KNOWN_SENSITIVE_KEYS : List String :=
  ["ansible_password", "ansible_become_password", "ansible_become_pass",
   "ansible_ssh_pass", "ansible_ssh_private_key_file"]

def KNOWN_BUILTIN_PREFIXES : List String :=
  ["ansible_"]

/-- Scalar YAML values.  In Python composite values (list/dict) also
occur and are serialized by `json.dumps` inside `normalize_value`; no
claim depends on them, so the value type carries the scalar cases. -/
inductive YVal where
  | vBool (b : Bool)
  | vInt (n : Int)
  | vStr (s : String)
deriving DecidableEq

/-- `normalize_value` (importers.py lines 59-65). -/
def normalize_value : YVal → String
  | .vBool true => "true"
  | .vBool false => "false"
  | .vInt n => toString n
  | .vStr s => s

/-- `ensure_variable` (importers.py lines 68-94). -/
def ensure_variable (db : Db) (varKey : String) (stats : ImportStats)
    (extraSensitiveKeys : List String) : Db × ImportStats × VarRow :=
  match db.vars.find? (fun v => v.varKey == varKey) with
  | some v => (db, stats, v)
  | none =>
    let sensitiveKeys := KNOWN_SENSITIVE_KEYS ++ extraSensitiveKeys
    let v : VarRow :=
      { id := db.nextId, varKey := varKey,
        isSensitive := sensitiveKeys.contains varKey,
        isAnsibleBuiltin := KNOWN_BUILTIN_PREFIXES.any (fun p => varKey.startsWith p) }
    ({ db with vars := db.vars ++ [v], nextId := db.nextId + 1 },
     { stats with variables_created := stats.variables_created + 1 }, v)

/-- `ensure_host` (importers.py lines 97-107). -/
def ensure_host (db : Db) (hostname : String) (stats : ImportStats) :
    Db × ImportStats × HostRow :=
  match db.hosts.find? (fun h => h.name == hostname) with
  | some h => (db, stats, h)
  | none =>
    let h : HostRow := { id := db.nextId, name := hostname }
    ({ db with hosts := db.hosts ++ [h], nextId := db.nextId + 1 },
     { stats with hosts_created := stats.hosts_created + 1 }, h)

/-- `ensure_group` (importers.py lines 110-128): create if absent;
if present and a different parent id is supplied, update the parent link
in place — with no acyclicity check. -/
def ensure_group (db : Db) (groupName : String) (parentId : Option Nat)
    (stats : ImportStats) : Db × ImportStats × GroupRow :=
  match db.groups.find? (fun g => g.name == groupName) with
  | some g =>
    match parentId with
    | some pid =>
      if g.parentId ≠ some pid then
        let g' := { g with parentId := some pid }
        ({ db with groups := replaceFirst (fun x => x.name == groupName) g' db.groups },
         stats, g')
      else
        (db, stats, g)
    | none => (db, stats, g)
  | none =>
    let g : GroupRow := { id := db.nextId, name := groupName, parentId := parentId }
    ({ db with groups := db.groups ++ [g], nextId := db.nextId + 1 },
     { stats with groups_created := stats.groups_created + 1 }, g)

def find_host_var (db : Db) (hid vid : Nat) : Option HostVarRow :=
  db.hostVars.find? (fun r => r.hostId == hid && r.varId == vid)

def find_group_var (db : Db) (gid vid : Nat) : Option GroupVarRow :=
  db.groupVars.find? (fun r => r.groupId == gid && r.varId == vid)

/-- `assign_host_variable` (importers.py lines 131-158): upsert keyed on
(host, variable); a sensitive variable stores the encrypted blob and
nulls the cleartext column, otherwise the cleartext is stored and the
blob nulled. -/
def assign_host_variable (cryptoKey : String) (db : Db) (host : HostRow)
    (v : VarRow) (value : String) (stats : ImportStats) : Db × ImportStats :=
  let newRow : HostVarRow :=
    if v.isSensitive then
      { hostId := host.id, varId := v.id, varValue := none,
        varValueEncrypted := encrypt_value cryptoKey value }
    else
      { hostId := host.id, varId := v.id, varValue := some value,
        varValueEncrypted := none }
  let db' :=
    match find_host_var db host.id v.id with
    | some _ =>
      { db with hostVars :=
          replaceFirst (fun r => r.hostId == host.id && r.varId == v.id) newRow db.hostVars }
    | none => { db with hostVars := db.hostVars ++ [newRow] }
  (db', { stats with host_vars_set := stats.host_vars_set + 1 })

/-- `assign_group_variable` (importers.py lines 161-188). -/
def assign_group_variable (cryptoKey : String) (db : Db) (grp : GroupRow)
    (v : VarRow) (value : String) (stats : ImportStats) : Db × ImportStats :=
  let newRow : GroupVarRow :=
    if v.isSensitive then
      { groupId := grp.id, varId := v.id, varValue := none,
        varValueEncrypted := encrypt_value cryptoKey value }
    else
      { groupId := grp.id, varId := v.id, varValue := some value,
        varValueEncrypted := none }
  let db' :=
    match find_group_var db grp.id v.id with
    | some _ =>
      { db with groupVars :=
          replaceFirst (fun r => r.groupId == grp.id && r.varId == v.id) newRow db.groupVars }
    | none => { db with groupVars := db.groupVars ++ [newRow] }
  (db', { stats with group_vars_set := stats.group_vars_set + 1 })

/-- `assign_host_to_group` (importers.py lines 191-206). -/
def assign_host_to_group (db : Db) (host : HostRow) (grp : GroupRow)
    (stats : ImportStats) : Db × ImportStats :=
  if db.hostGroups.any (fun r => r.hostId == host.id && r.groupId == grp.id) then
    (db, stats)
  else
    ({ db with hostGroups := db.hostGroups ++ [{ hostId := host.id, groupId := grp.id }] },
     { stats with host_group_links := stats.host_group_links + 1 })

mutual
/-- Recursive import document (importers.py `import_group_recursive`):
`{hosts: {name: {key: value}}, vars: {...}, children: {name: {...}}}`.
A `None`/non-dict section behaves exactly like an empty one in Python
(the loop body is skipped), so both are represented by the empty list /
`GroupChildren.nil`. -/
inductive GroupData where
  | mk (hostsData : List (String × List (String × YVal)))
       (varsData : List (String × YVal))
       (childrenData : GroupChildren)
inductive GroupChildren where
  | nil
  | cons (name : String) (data : GroupData) (rest : GroupChildren)
end

/-- The per-host inner loop of `import_group_recursive` (and of
`import_host_vars`): normalize, ensure the catalog entry, assign. -/
def import_host_var_list (cryptoKey : String) (db : Db) (stats : ImportStats)
    (host : HostRow) (hvs : List (String × YVal))
    (extraSensitiveKeys : List String) : Db × ImportStats :=
  hvs.foldl
    (fun acc kv =>
      let value := normalize_value kv.2
      let r := ensure_variable acc.1 kv.1 acc.2 extraSensitiveKeys
      assign_host_variable cryptoKey r.1 host r.2.2 value r.2.1)
    (db, stats)

/-- The `hosts:` section loop of `import_group_recursive`. -/
def import_hosts_section (cryptoKey : String) (db : Db) (stats : ImportStats)
    (grp : GroupRow) (hostsData : List (String × List (String × YVal)))
    (extraSensitiveKeys : List String) : Db × ImportStats :=
  hostsData.foldl
    (fun acc h =>
      let r := ensure_host acc.1 h.1 acc.2
      let r2 := assign_host_to_group r.1 r.2.2 grp r.2.1
      import_host_var_list cryptoKey r2.1 r2.2 r.2.2 h.2 extraSensitiveKeys)
    (db, stats)

/-- The `vars:` section loop of `import_group_recursive`. -/
def import_vars_section (cryptoKey : String) (db : Db) (stats : ImportStats)
    (grp : GroupRow) (varsData : List (String × YVal))
    (extraSensitiveKeys : List String) : Db × ImportStats :=
  varsData.foldl
    (fun acc kv =>
      let value := normalize_value kv.2
      let r := ensure_variable acc.1 kv.1 acc.2 extraSensitiveKeys
      assign_group_variable cryptoKey r.1 grp r.2.2 value r.2.1)
    (db, stats)

mutual
/-- `import_group_recursive` (importers.py lines 228-281): ensure the
group (attaching the supplied parent), import its hosts and their
variables, its group variables, then recurse into children with this
group's id as parent. -/
def import_group_recursive (cryptoKey : String) (db : Db) (stats : ImportStats)
    (groupName : String) (gd : GroupData) (parentId : Option Nat)
    (extraSensitiveKeys : List String) : Db × ImportStats :=
  match gd with
  | .mk hostsData varsData childrenData =>
    let r := ensure_group db groupName parentId stats
    let r2 := import_hosts_section cryptoKey r.1 r.2.1 r.2.2 hostsData extraSensitiveKeys
    let r3 := import_vars_section cryptoKey r2.1 r2.2 r.2.2 varsData extraSensitiveKeys
    import_children cryptoKey r3.1 r3.2 childrenData r.2.2.id extraSensitiveKeys

def import_children (cryptoKey : String) (db : Db) (stats : ImportStats) :
    GroupChildren → Nat → List String → Db × ImportStats
  | .nil, _, _ => (db, stats)
  | .cons cname cdata rest, pid, extra =>
    let r := import_group_recursive cryptoKey db stats cname cdata (some pid) extra
    import_children cryptoKey r.1 r.2 rest pid extra
end

/-- The CLI `group import` loop (groups.py lines 403-431): every
top-level entry of the document is imported with parent `None` and a
fresh `ImportStats`. -/
def import_document (cryptoKey : String) (db : Db)
    (doc : List (String × GroupData)) : Db × ImportStats :=
  doc.foldl
    (fun acc g => import_group_recursive cryptoKey acc.1 acc.2 g.1 g.2 none [])
    (db, { })

theorem find?_replaceFirst_of_found {β : Type} (p : β → Bool) (r : β)
    (l : List β) (hr : p r = true) (hf : (l.find? p).isSome = true) :
    (replaceFirst p r l).find? p = some r := by
  induction l with
  | nil => simp [List.find?] at hf
  | cons x rest ih =>
    by_cases hx : p x = true
    · simp [replaceFirst, hx, List.find?, hr]
    · simp only [List.find?_cons] at hf
      simp only [replaceFirst, hx, if_false, Bool.false_eq_true]
      rw [List.find?_cons]
      cases hpx : p x with
      | true => exact absurd hpx hx
      | false =>
        rw [hpx] at hf
        exact ih hf

theorem find?_append_of_none {β : Type} (p : β → Bool) (l1 l2 : List β)
    (h : l1.find? p = none) : (l1 ++ l2).find? p = l2.find? p := by
  induction l1 with
  | nil => rfl
  | cons x rest ih =>
    rw [List.find?_cons] at h
    cases hpx : p x with
    | true => rw [hpx] at h; simp at h
    | false =>
      rw [hpx] at h
      rw [List.cons_append, List.find?_cons, hpx]
      exact ih h

/-- The row stored by `assign_host_variable` for (host, variable). -/
def assigned_host_row (cryptoKey : String) (host : HostRow) (v : VarRow)
    (value : String) : HostVarRow :=
  if v.isSensitive then
    { hostId := host.id, varId := v.id, varValue := none,
      varValueEncrypted := encrypt_value cryptoKey value }
  else
    { hostId := host.id, varId := v.id, varValue := some value,
      varValueEncrypted := none }

/-- The row stored by `assign_group_variable` for (group, variable). -/
def assigned_group_row (cryptoKey : String) (grp : GroupRow) (v : VarRow)
    (value : String) : GroupVarRow :=
  if v.isSensitive then
    { groupId := grp.id, varId := v.id, varValue := none,
      varValueEncrypted := encrypt_value cryptoKey value }
  else
    { groupId := grp.id, varId := v.id, varValue := some value,
      varValueEncrypted := none }

theorem find_host_var_assign (cryptoKey : String) (db : Db) (host : HostRow)
    (v : VarRow) (value : String) (stats : ImportStats) :
    find_host_var (assign_host_variable cryptoKey db host v value stats).1
        host.id v.id
      = some (assigned_host_row cryptoKey host v value) := by
  have hr : (fun r : HostVarRow => r.hostId == host.id && r.varId == v.id)
      (assigned_host_row cryptoKey host v value) = true := by
    unfold assigned_host_row
    by_cases hs : v.isSensitive <;> simp [hs]
  unfold assigned_host_row at hr ⊢
  unfold assign_host_variable find_host_var
  cases hf : List.find? (fun r : HostVarRow => r.hostId == host.id && r.varId == v.id)
      db.hostVars with
  | some old =>
    simp only [hf]
    exact find?_replaceFirst_of_found _ _ _ hr (by rw [hf]; rfl)
  | none =>
    simp only [hf]
    rw [find?_append_of_none _ _ _ hf]
    exact List.find?_cons_of_pos _ hr

theorem find_group_var_assign (cryptoKey : String) (db : Db) (grp : GroupRow)
    (v : VarRow) (value : String) (stats : ImportStats) :
    find_group_var (assign_group_variable cryptoKey db grp v value stats).1
        grp.id v.id
      = some (assigned_group_row cryptoKey grp v value) := by
  have hr : (fun r : GroupVarRow => r.groupId == grp.id && r.varId == v.id)
      (assigned_group_row cryptoKey grp v value) = true := by
    unfold assigned_group_row
    by_cases hs : v.isSensitive <;> simp [hs]
  unfold assigned_group_row at hr ⊢
  unfold assign_group_variable find_group_var
  cases hf : List.find? (fun r : GroupVarRow => r.groupId == grp.id && r.varId == v.id)
      db.groupVars with
  | some old =>
    simp only [hf]
    exact find?_replaceFirst_of_found _ _ _ hr (by rw [hf]; rfl)
  | none =>
    simp only [hf]
    rw [find?_append_of_none _ _ _ hf]
    exact List.find?_cons_of_pos _ hr

/-- C4 (amended): after an `assign_host_variable` or
`assign_group_variable` write, the (entity, variable) row never has both
value columns non-null, and has exactly one non-null whenever the
variable is non-sensitive or the value is non-empty; in the remaining
case — a sensitive variable with a value on which `encrypt_value`
returns `None` (the empty value) — both columns are null. -/
theorem c4_assign_value_columns (cryptoKey : String) (db : Db)
    (stats : ImportStats) (host : HostRow) (grp : GroupRow) (v : VarRow)
    (value : String) :
    (∀ r : HostVarRow,
      find_host_var (assign_host_variable cryptoKey db host v value stats).1
          host.id v.id = some r →
        ¬(r.varValue.isSome = true ∧ r.varValueEncrypted.isSome = true)
        ∧ ((v.isSensitive = false ∨ value ≠ "") →
            (r.varValue.isSome = true ∨ r.varValueEncrypted.isSome = true)))
    ∧ (∀ r : GroupVarRow,
      find_group_var (assign_group_variable cryptoKey db grp v value stats).1
          grp.id v.id = some r →
        ¬(r.varValue.isSome = true ∧ r.varValueEncrypted.isSome = true)
        ∧ ((v.isSensitive = false ∨ value ≠ "") →
            (r.varValue.isSome = true ∨ r.varValueEncrypted.isSome = true))) := by
  constructor
  · intro r hfind
    rw [find_host_var_assign] at hfind
    injection hfind with hfind
    subst hfind
    unfold assigned_host_row
    by_cases hs : v.isSensitive
    · simp only [hs, if_true]
      constructor
      · intro hc
        simp at hc
      · intro hcond
        rcases hcond with hcond | hcond
        · simp [hs] at hcond
        · right
          simp [encrypt_value, hcond]
    · simp only [hs, if_false]
      constructor
      · intro hc
        simp at hc
      · intro _
        left
        simp
  · intro r hfind
    rw [find_group_var_assign] at hfind
    injection hfind with hfind
    subst hfind
    unfold assigned_group_row
    by_cases hs : v.isSensitive
    · simp only [hs, if_true]
      constructor
      · intro hc
        simp at hc
      · intro hcond
        rcases hcond with hcond | hcond
        · simp [hs] at hcond
        · right
          simp [encrypt_value, hcond]
    · simp only [hs, if_false]
      constructor
      · intro hc
        simp at hc
      · intro _
        left
        simp

def c4Host : HostRow := { id := 1, name := "h1" }

def c4Grp : GroupRow := { id := 3, name := "web" }

def c4VarPlain : VarRow := { id := 2, varKey := "ansible_host" }

def c4VarSensitive : VarRow :=
  { id := 2, varKey := "ansible_password", isSensitive := true }

def c4RowPlain : HostVarRow :=
  { hostId := 1, varId := 2, varValue := some "10.0.0.5",
    varValueEncrypted := none }

def c4RowGrp : GroupVarRow :=
  { groupId := 3, varId := 2, varValue := some "10.0.0.5",
    varValueEncrypted := none }

theorem c4_assign_value_columns_witness :
    (¬(c4RowPlain.varValue.isSome = true
        ∧ c4RowPlain.varValueEncrypted.isSome = true)
      ∧ (c4RowPlain.varValue.isSome = true
          ∨ c4RowPlain.varValueEncrypted.isSome = true))
    ∧ (¬(c4RowGrp.varValue.isSome = true
        ∧ c4RowGrp.varValueEncrypted.isSome = true)
      ∧ (c4RowGrp.varValue.isSome = true
          ∨ c4RowGrp.varValueEncrypted.isSome = true)) := by
  have h := c4_assign_value_columns "k" { } { } c4Host c4Grp c4VarPlain "10.0.0.5"
  have h1 := h.1 c4RowPlain (by decide)
  have h2 := h.2 c4RowGrp (by decide)
  exact ⟨⟨h1.1, h1.2 (Or.inl rfl)⟩, ⟨h2.1, h2.2 (Or.inl rfl)⟩⟩

/-- C4 counterexample: assigning the empty value to a sensitive variable
(`encrypt_value` returns `None` on the empty string) leaves the row with
BOTH value columns null — not exactly one. -/
theorem c4_sensitive_empty_value_both_null :
    find_host_var
        (assign_host_variable "k" { } c4Host c4VarSensitive "" { }).1 1 2
      = some { hostId := 1, varId := 2, varValue := none,
               varValueEncrypted := none } := by
  decide

/-! ## C3 : idempotence of the import -/

/-- The name columns the `ensure_*` upserts key on. -/
structure NameSets where
  hostNames : List String
  groupNames : List String
  varKeys : List String
deriving DecidableEq

def dbNames (db : Db) : NameSets :=
  { hostNames := db.hosts.map (fun h => h.name),
    groupNames := db.groups.map (fun g => g.name),
    varKeys := db.vars.map (fun v => v.varKey) }

/-- Pointwise inclusion of the three name lists. -/
def NamesLe (a b : NameSets) : Prop :=
  a.hostNames ⊆ b.hostNames ∧ a.groupNames ⊆ b.groupNames
    ∧ a.varKeys ⊆ b.varKeys

theorem namesLe_refl (a : NameSets) : NamesLe a a :=
  ⟨List.Subset.refl _, List.Subset.refl _, List.Subset.refl _⟩

theorem namesLe_trans {a b c : NameSets} (h1 : NamesLe a b)
    (h2 : NamesLe b c) : NamesLe a c :=
  ⟨h1.1.trans h2.1, h1.2.1.trans h2.2.1, h1.2.2.trans h2.2.2⟩

mutual
/-- Every host name, group name and variable key mentioned by the
document is registered in the name sets. -/
def DataPresent (ns : NameSets) : GroupData → Prop
  | .mk hostsData varsData childrenData =>
    (∀ h ∈ hostsData, h.1 ∈ ns.hostNames ∧ ∀ kv ∈ h.2, kv.1 ∈ ns.varKeys)
    ∧ (∀ kv ∈ varsData, kv.1 ∈ ns.varKeys)
    ∧ ChildrenPresent ns childrenData

def ChildrenPresent (ns : NameSets) : GroupChildren → Prop
  | .nil => True
  | .cons cname cdata rest =>
    cname ∈ ns.groupNames ∧ DataPresent ns cdata ∧ ChildrenPresent ns rest
end

mutual
theorem DataPresent_mono {a b : NameSets} (hle : NamesLe a b) :
    ∀ gd : GroupData, DataPresent a gd → DataPresent b gd
  | .mk hostsData varsData childrenData, h =>
    ⟨fun x hx => ⟨hle.1 (h.1 x hx).1, fun kv hkv => hle.2.2 ((h.1 x hx).2 kv hkv)⟩,
     fun kv hkv => hle.2.2 (h.2.1 kv hkv),
     ChildrenPresent_mono hle childrenData h.2.2⟩

theorem ChildrenPresent_mono {a b : NameSets} (hle : NamesLe a b) :
    ∀ ch : GroupChildren, ChildrenPresent a ch → ChildrenPresent b ch
  | .nil, _ => trivial
  | .cons cname cdata rest, h =>
    ⟨hle.2.1 h.1, DataPresent_mono hle cdata h.2.1,
     ChildrenPresent_mono hle rest h.2.2⟩
end

/-- The three creation counters are untouched. -/
def sameCreations (s s' : ImportStats) : Prop :=
  s'.hosts_created = s.hosts_created ∧ s'.groups_created = s.groups_created
    ∧ s'.variables_created = s.variables_created

theorem sameCreations_refl (s : ImportStats) : sameCreations s s :=
  ⟨rfl, rfl, rfl⟩

theorem sameCreations_trans {a b c : ImportStats} (h1 : sameCreations a b)
    (h2 : sameCreations b c) : sameCreations a c :=
  ⟨h2.1.trans h1.1, h2.2.1.trans h1.2.1, h2.2.2.trans h1.2.2⟩

theorem map_replaceFirst_eq {β γ : Type} (p : β → Bool) (r : β) (l : List β)
    (f : β → γ) (h : ∀ x ∈ l, p x = true → f r = f x) :
    (replaceFirst p r l).map f = l.map f := by
  induction l with
  | nil => rfl
  | cons x rest ih =>
    by_cases hx : p x = true
    · simp [replaceFirst, hx, h x (List.mem_cons_self _ _) hx]
    · simp only [replaceFirst, hx, if_false, Bool.false_eq_true, List.map_cons]
      rw [ih (fun y hy hpy => h y (List.mem_cons_of_mem _ hy) hpy)]

theorem ensure_host_le (db : Db) (n : String) (stats : ImportStats) :
    NamesLe (dbNames db) (dbNames (ensure_host db n stats).1)
    ∧ n ∈ (dbNames (ensure_host db n stats).1).hostNames := by
  unfold ensure_host
  cases hf : db.hosts.find? (fun h => h.name == n) with
  | some h =>
    refine ⟨namesLe_refl _, ?_⟩
    have hname : h.name = n := by simpa using List.find?_some hf
    exact hname ▸ List.mem_map_of_mem _ (List.mem_of_find?_eq_some hf)
  | none =>
    refine ⟨⟨?_, ?_, ?_⟩, ?_⟩ <;>
      simp [dbNames, List.subset_append_left]

theorem ensure_variable_le (db : Db) (k : String) (stats : ImportStats)
    (extra : List String) :
    NamesLe (dbNames db) (dbNames (ensure_variable db k stats extra).1)
    ∧ k ∈ (dbNames (ensure_variable db k stats extra).1).varKeys := by
  unfold ensure_variable
  cases hf : db.vars.find? (fun v => v.varKey == k) with
  | some v =>
    refine ⟨namesLe_refl _, ?_⟩
    have hname : v.varKey = k := by simpa using List.find?_some hf
    exact hname ▸ List.mem_map_of_mem _ (List.mem_of_find?_eq_some hf)
  | none =>
    refine ⟨⟨?_, ?_, ?_⟩, ?_⟩ <;>
      simp [dbNames, List.subset_append_left]

theorem ensure_group_names_update (db : Db) (n : String) (g : GroupRow)
    (hf : db.groups.find? (fun x => x.name == n) = some g)
    (g' : GroupRow) (hg' : g'.name = g.name) :
    (replaceFirst (fun x => x.name == n) g' db.groups).map (fun x => x.name)
      = db.groups.map (fun x => x.name) := by
  apply map_replaceFirst_eq
  intro x _ hpx
  have hxn : x.name = n := by simpa using hpx
  have hgn : g.name = n := by simpa using List.find?_some hf
  rw [hg', hgn, hxn]

theorem ensure_group_le (db : Db) (n : String) (parentId : Option Nat)
    (stats : ImportStats) :
    NamesLe (dbNames db) (dbNames (ensure_group db n parentId stats).1)
    ∧ n ∈ (dbNames (ensure_group db n parentId stats).1).groupNames := by
  unfold ensure_group
  cases hf : db.groups.find? (fun g => g.name == n) with
  | some g =>
    have hgname : g.name = n := by simpa using List.find?_some hf
    have hm : n ∈ (dbNames db).groupNames :=
      hgname ▸ List.mem_map_of_mem _ (List.mem_of_find?_eq_some hf)
    cases parentId with
    | none => exact ⟨namesLe_refl _, hm⟩
    | some pid =>
      dsimp only
      by_cases hne : g.parentId ≠ some pid
      · rw [if_pos hne]
        have heq : (replaceFirst (fun x => x.name == n)
              { g with parentId := some pid } db.groups).map (fun x => x.name)
            = db.groups.map (fun x => x.name) :=
          ensure_group_names_update db n g hf _ rfl
        refine ⟨⟨List.Subset.refl _, ?_, List.Subset.refl _⟩, ?_⟩
        · simp only [dbNames, heq]
          exact List.Subset.refl _
        · simp only [dbNames, heq]
          exact hm
      · rw [if_neg hne]
        exact ⟨namesLe_refl _, hm⟩
  | none =>
    refine ⟨⟨?_, ?_, ?_⟩, ?_⟩ <;>
      simp [dbNames, List.subset_append_left]

theorem ensure_host_found_eq (db : Db) (n : String) (stats : ImportStats)
    (hn : n ∈ (dbNames db).hostNames) :
    (ensure_host db n stats).1 = db ∧ (ensure_host db n stats).2.1 = stats := by
  unfold ensure_host
  cases hf : db.hosts.find? (fun h => h.name == n) with
  | some h => exact ⟨rfl, rfl⟩
  | none =>
    exfalso
    rw [List.find?_eq_none] at hf
    simp only [dbNames] at hn
    obtain ⟨x, hx, hxn⟩ := List.mem_map.mp hn
    exact hf x hx (by simp [hxn])

theorem ensure_variable_found_eq (db : Db) (k : String) (stats : ImportStats)
    (extra : List String) (hn : k ∈ (dbNames db).varKeys) :
    (ensure_variable db k stats extra).1 = db
    ∧ (ensure_variable db k stats extra).2.1 = stats := by
  unfold ensure_variable
  cases hf : db.vars.find? (fun v => v.varKey == k) with
  | some v => exact ⟨rfl, rfl⟩
  | none =>
    exfalso
    rw [List.find?_eq_none] at hf
    simp only [dbNames] at hn
    obtain ⟨x, hx, hxn⟩ := List.mem_map.mp hn
    exact hf x hx (by simp [hxn])

theorem ensure_group_found_inv (db : Db) (n : String) (parentId : Option Nat)
    (stats : ImportStats) (hn : n ∈ (dbNames db).groupNames) :
    dbNames (ensure_group db n parentId stats).1 = dbNames db
    ∧ (ensure_group db n parentId stats).2.1 = stats := by
  unfold ensure_group
  cases hf : db.groups.find? (fun g => g.name == n) with
  | some g =>
    cases parentId with
    | none => exact ⟨rfl, rfl⟩
    | some pid =>
      dsimp only
      by_cases hne : g.parentId ≠ some pid
      · rw [if_pos hne]
        constructor
        · simp only [dbNames]
          rw [ensure_group_names_update db n g hf { g with parentId := some pid } rfl]
        · rfl
      · rw [if_neg hne]
        exact ⟨rfl, rfl⟩
  | none =>
    exfalso
    rw [List.find?_eq_none] at hf
    simp only [dbNames] at hn
    obtain ⟨x, hx, hxn⟩ := List.mem_map.mp hn
    exact hf x hx (by simp [hxn])

theorem assign_host_variable_inv (ck : String) (db : Db) (host : HostRow)
    (v : VarRow) (value : String) (stats : ImportStats) :
    dbNames (assign_host_variable ck db host v value stats).1 = dbNames db
    ∧ sameCreations stats (assign_host_variable ck db host v value stats).2 := by
  unfold assign_host_variable
  cases hf : find_host_var db host.id v.id <;>
    exact ⟨rfl, rfl, rfl, rfl⟩

theorem assign_group_variable_inv (ck : String) (db : Db) (grp : GroupRow)
    (v : VarRow) (value : String) (stats : ImportStats) :
    dbNames (assign_group_variable ck db grp v value stats).1 = dbNames db
    ∧ sameCreations stats (assign_group_variable ck db grp v value stats).2 := by
  unfold assign_group_variable
  cases hf : find_group_var db grp.id v.id <;>
    exact ⟨rfl, rfl, rfl, rfl⟩

theorem assign_host_to_group_inv (db : Db) (host : HostRow) (grp : GroupRow)
    (stats : ImportStats) :
    dbNames (assign_host_to_group db host grp stats).1 = dbNames db
    ∧ sameCreations stats (assign_host_to_group db host grp stats).2 := by
  unfold assign_host_to_group
  by_cases hf : db.hostGroups.any
      (fun r => r.hostId == host.id && r.groupId == grp.id) = true
  · rw [if_pos hf]
    exact ⟨rfl, rfl, rfl, rfl⟩
  · rw [if_neg hf]
    exact ⟨rfl, rfl, rfl, rfl⟩

theorem import_host_var_list_post (ck : String) (host : HostRow)
    (extra : List String) :
    ∀ (hvs : List (String × YVal)) (db : Db) (stats : ImportStats),
      NamesLe (dbNames db)
          (dbNames (import_host_var_list ck db stats host hvs extra).1)
      ∧ ∀ kv ∈ hvs,
          kv.1 ∈ (dbNames (import_host_var_list ck db stats host hvs extra).1).varKeys := by
  intro hvs
  induction hvs with
  | nil => exact fun db stats => ⟨namesLe_refl _, by simp⟩
  | cons kv rest ih =>
    intro db stats
    have hle1 := (ensure_variable_le db kv.1 stats extra).1
    have hk1 := (ensure_variable_le db kv.1 stats extra).2
    have ha := assign_host_variable_inv ck (ensure_variable db kv.1 stats extra).1
        host (ensure_variable db kv.1 stats extra).2.2 (normalize_value kv.2)
        (ensure_variable db kv.1 stats extra).2.1
    have hstep : import_host_var_list ck db stats host (kv :: rest) extra
        = import_host_var_list ck
            (assign_host_variable ck (ensure_variable db kv.1 stats extra).1 host
              (ensure_variable db kv.1 stats extra).2.2 (normalize_value kv.2)
              (ensure_variable db kv.1 stats extra).2.1).1
            (assign_host_variable ck (ensure_variable db kv.1 stats extra).1 host
              (ensure_variable db kv.1 stats extra).2.2 (normalize_value kv.2)
              (ensure_variable db kv.1 stats extra).2.1).2
            host rest extra := rfl
    rw [hstep]
    obtain ⟨ihle, ihmem⟩ := ih _ _
    have hle1' : NamesLe (dbNames db)
        (dbNames (assign_host_variable ck (ensure_variable db kv.1 stats extra).1
          host (ensure_variable db kv.1 stats extra).2.2 (normalize_value kv.2)
          (ensure_variable db kv.1 stats extra).2.1).1) := by
      rw [ha.1]; exact hle1
    have hk1' : kv.1 ∈ (dbNames (assign_host_variable ck
          (ensure_variable db kv.1 stats extra).1 host
          (ensure_variable db kv.1 stats extra).2.2 (normalize_value kv.2)
          (ensure_variable db kv.1 stats extra).2.1).1).varKeys := by
      rw [ha.1]; exact hk1
    refine ⟨namesLe_trans hle1' ihle, ?_⟩
    intro kv' hkv'
    rcases List.mem_cons.mp hkv' with h | h
    · subst h
      exact ihle.2.2 hk1'
    · exact ihmem kv' h

theorem import_vars_section_post (ck : String) (grp : GroupRow)
    (extra : List String) :
    ∀ (vlist : List (String × YVal)) (db : Db) (stats : ImportStats),
      NamesLe (dbNames db)
          (dbNames (import_vars_section ck db stats grp vlist extra).1)
      ∧ ∀ kv ∈ vlist,
          kv.1 ∈ (dbNames (import_vars_section ck db stats grp vlist extra).1).varKeys := by
  intro vlist
  induction vlist with
  | nil => exact fun db stats => ⟨namesLe_refl _, by simp⟩
  | cons kv rest ih =>
    intro db stats
    have hle1 := (ensure_variable_le db kv.1 stats extra).1
    have hk1 := (ensure_variable_le db kv.1 stats extra).2
    have ha := assign_group_variable_inv ck (ensure_variable db kv.1 stats extra).1
        grp (ensure_variable db kv.1 stats extra).2.2 (normalize_value kv.2)
        (ensure_variable db kv.1 stats extra).2.1
    have hstep : import_vars_section ck db stats grp (kv :: rest) extra
        = import_vars_section ck
            (assign_group_variable ck (ensure_variable db kv.1 stats extra).1 grp
              (ensure_variable db kv.1 stats extra).2.2 (normalize_value kv.2)
              (ensure_variable db kv.1 stats extra).2.1).1
            (assign_group_variable ck (ensure_variable db kv.1 stats extra).1 grp
              (ensure_variable db kv.1 stats extra).2.2 (normalize_value kv.2)
              (ensure_variable db kv.1 stats extra).2.1).2
            grp rest extra := rfl
    rw [hstep]
    obtain ⟨ihle, ihmem⟩ := ih _ _
    have hle1' : NamesLe (dbNames db)
        (dbNames (assign_group_variable ck (ensure_variable db kv.1 stats extra).1
          grp (ensure_variable db kv.1 stats extra).2.2 (normalize_value kv.2)
          (ensure_variable db kv.1 stats extra).2.1).1) := by
      rw [ha.1]; exact hle1
    have hk1' : kv.1 ∈ (dbNames (assign_group_variable ck
          (ensure_variable db kv.1 stats extra).1 grp
          (ensure_variable db kv.1 stats extra).2.2 (normalize_value kv.2)
          (ensure_variable db kv.1 stats extra).2.1).1).varKeys := by
      rw [ha.1]; exact hk1
    refine ⟨namesLe_trans hle1' ihle, ?_⟩
    intro kv' hkv'
    rcases List.mem_cons.mp hkv' with h | h
    · subst h
      exact ihle.2.2 hk1'
    · exact ihmem kv' h

theorem import_hosts_section_post (ck : String) (grp : GroupRow)
    (extra : List String) :
    ∀ (hostsData : List (String × List (String × YVal))) (db : Db)
      (stats : ImportStats),
      NamesLe (dbNames db)
          (dbNames (import_hosts_section ck db stats grp hostsData extra).1)
      ∧ ∀ h ∈ hostsData,
          h.1 ∈ (dbNames (import_hosts_section ck db stats grp hostsData extra).1).hostNames
          ∧ ∀ kv ∈ h.2,
              kv.1 ∈ (dbNames (import_hosts_section ck db stats grp hostsData extra).1).varKeys := by
  intro hostsData
  induction hostsData with
  | nil => exact fun db stats => ⟨namesLe_refl _, by simp⟩
  | cons h rest ih =>
    intro db stats
    have he := ensure_host_le db h.1 stats
    have hl := assign_host_to_group_inv (ensure_host db h.1 stats).1
        (ensure_host db h.1 stats).2.2 grp (ensure_host db h.1 stats).2.1
    have hv := import_host_var_list_post ck (ensure_host db h.1 stats).2.2 extra h.2
        (assign_host_to_group (ensure_host db h.1 stats).1
          (ensure_host db h.1 stats).2.2 grp (ensure_host db h.1 stats).2.1).1
        (assign_host_to_group (ensure_host db h.1 stats).1
          (ensure_host db h.1 stats).2.2 grp (ensure_host db h.1 stats).2.1).2
    have hstep : import_hosts_section ck db stats grp (h :: rest) extra
        = import_hosts_section ck
            (import_host_var_list ck
              (assign_host_to_group (ensure_host db h.1 stats).1
                (ensure_host db h.1 stats).2.2 grp (ensure_host db h.1 stats).2.1).1
              (assign_host_to_group (ensure_host db h.1 stats).1
                (ensure_host db h.1 stats).2.2 grp (ensure_host db h.1 stats).2.1).2
              (ensure_host db h.1 stats).2.2 h.2 extra).1
            (import_host_var_list ck
              (assign_host_to_group (ensure_host db h.1 stats).1
                (ensure_host db h.1 stats).2.2 grp (ensure_host db h.1 stats).2.1).1
              (assign_host_to_group (ensure_host db h.1 stats).1
                (ensure_host db h.1 stats).2.2 grp (ensure_host db h.1 stats).2.1).2
              (ensure_host db h.1 stats).2.2 h.2 extra).2
            grp rest extra := rfl
    rw [hstep]
    obtain ⟨ihle, ihmem⟩ := ih _ _
    have hlemid : NamesLe (dbNames db)
        (dbNames (import_host_var_list ck
          (assign_host_to_group (ensure_host db h.1 stats).1
            (ensure_host db h.1 stats).2.2 grp (ensure_host db h.1 stats).2.1).1
          (assign_host_to_group (ensure_host db h.1 stats).1
            (ensure_host db h.1 stats).2.2 grp (ensure_host db h.1 stats).2.1).2
          (ensure_host db h.1 stats).2.2 h.2 extra).1) := by
      refine namesLe_trans ?_ hv.1
      rw [hl.1]
      exact he.1
    have hhost : h.1 ∈ (dbNames (import_host_var_list ck
          (assign_host_to_group (ensure_host db h.1 stats).1
            (ensure_host db h.1 stats).2.2 grp (ensure_host db h.1 stats).2.1).1
          (assign_host_to_group (ensure_host db h.1 stats).1
            (ensure_host db h.1 stats).2.2 grp (ensure_host db h.1 stats).2.1).2
          (ensure_host db h.1 stats).2.2 h.2 extra).1).hostNames := by
      apply hv.1.1
      rw [hl.1]
      exact he.2
    refine ⟨namesLe_trans hlemid ihle, ?_⟩
    intro h' hh'
    rcases List.mem_cons.mp hh' with hh | hh
    · subst hh
      exact ⟨ihle.1 hhost, fun kv hkv => ihle.2.2 (hv.2 kv hkv)⟩
    · exact ihmem h' hh

mutual
/-- After importing a group document, the group and everything the
document mentions are registered, and the name sets only grew. -/
theorem import_group_recursive_post (ck : String) :
    ∀ (gd : GroupData) (db : Db) (stats : ImportStats) (groupName : String)
      (parentId : Option Nat) (extra : List String),
      NamesLe (dbNames db)
          (dbNames (import_group_recursive ck db stats groupName gd parentId extra).1)
      ∧ groupName ∈ (dbNames (import_group_recursive ck db stats groupName gd parentId extra).1).groupNames
      ∧ DataPresent (dbNames (import_group_recursive ck db stats groupName gd parentId extra).1) gd
  | .mk hostsData varsData childrenData, db, stats, groupName, parentId, extra => by
    have he := ensure_group_le db groupName parentId stats
    have h2 := import_hosts_section_post ck
        (ensure_group db groupName parentId stats).2.2 extra hostsData
        (ensure_group db groupName parentId stats).1
        (ensure_group db groupName parentId stats).2.1
    have h3 := import_vars_section_post ck
        (ensure_group db groupName parentId stats).2.2 extra varsData
        (import_hosts_section ck (ensure_group db groupName parentId stats).1
          (ensure_group db groupName parentId stats).2.1
          (ensure_group db groupName parentId stats).2.2 hostsData extra).1
        (import_hosts_section ck (ensure_group db groupName parentId stats).1
          (ensure_group db groupName parentId stats).2.1
          (ensure_group db groupName parentId stats).2.2 hostsData extra).2
    have h4 := import_children_post ck childrenData
        (import_vars_section ck
          (import_hosts_section ck (ensure_group db groupName parentId stats).1
            (ensure_group db groupName parentId stats).2.1
            (ensure_group db groupName parentId stats).2.2 hostsData extra).1
          (import_hosts_section ck (ensure_group db groupName parentId stats).1
            (ensure_group db groupName parentId stats).2.1
            (ensure_group db groupName parentId stats).2.2 hostsData extra).2
          (ensure_group db groupName parentId stats).2.2 varsData extra).1
        (import_vars_section ck
          (import_hosts_section ck (ensure_group db groupName parentId stats).1
            (ensure_group db groupName parentId stats).2.1
            (ensure_group db groupName parentId stats).2.2 hostsData extra).1
          (import_hosts_section ck (ensure_group db groupName parentId stats).1
            (ensure_group db groupName parentId stats).2.1
            (ensure_group db groupName parentId stats).2.2 hostsData extra).2
          (ensure_group db groupName parentId stats).2.2 varsData extra).2
        (ensure_group db groupName parentId stats).2.2.id extra
    have hstep : import_group_recursive ck db stats groupName
        (GroupData.mk hostsData varsData childrenData) parentId extra
        = import_children ck
            (import_vars_section ck
              (import_hosts_section ck (ensure_group db groupName parentId stats).1
                (ensure_group db groupName parentId stats).2.1
                (ensure_group db groupName parentId stats).2.2 hostsData extra).1
              (import_hosts_section ck (ensure_group db groupName parentId stats).1
                (ensure_group db groupName parentId stats).2.1
                (ensure_group db groupName parentId stats).2.2 hostsData extra).2
              (ensure_group db groupName parentId stats).2.2 varsData extra).1
            (import_vars_section ck
              (import_hosts_section ck (ensure_group db groupName parentId stats).1
                (ensure_group db groupName parentId stats).2.1
                (ensure_group db groupName parentId stats).2.2 hostsData extra).1
              (import_hosts_section ck (ensure_group db groupName parentId stats).1
                (ensure_group db groupName parentId stats).2.1
                (ensure_group db groupName parentId stats).2.2 hostsData extra).2
              (ensure_group db groupName parentId stats).2.2 varsData extra).2
            childrenData (ensure_group db groupName parentId stats).2.2.id extra := rfl
    rw [hstep]
    have hle : NamesLe (dbNames db) _ :=
      namesLe_trans (namesLe_trans (namesLe_trans he.1 h2.1) h3.1) h4.1
    refine ⟨hle, ?_, ?_, ?_, ?_⟩
    · exact h4.1.2.1 (h3.1.2.1 (h2.1.2.1 he.2))
    · intro x hx
      refine ⟨h4.1.1 (h3.1.1 (h2.2 x hx).1), ?_⟩
      intro kv hkv
      exact h4.1.2.2 (h3.1.2.2 ((h2.2 x hx).2 kv hkv))
    · intro kv hkv
      exact h4.1.2.2 (h3.2 kv hkv)
    · exact h4.2

theorem import_children_post (ck : String) :
    ∀ (chd : GroupChildren) (db : Db) (stats : ImportStats) (pid : Nat)
      (extra : List String),
      NamesLe (dbNames db)
          (dbNames (import_children ck db stats chd pid extra).1)
      ∧ ChildrenPresent (dbNames (import_children ck db stats chd pid extra).1) chd
  | .nil, db, stats, pid, extra => ⟨namesLe_refl _, trivial⟩
  | .cons cname cdata rest, db, stats, pid, extra => by
    have hc := import_group_recursive_post ck cdata db stats cname (some pid) extra
    have hr := import_children_post ck rest
        (import_group_recursive ck db stats cname cdata (some pid) extra).1
        (import_group_recursive ck db stats cname cdata (some pid) extra).2
        pid extra
    have hstep : import_children ck db stats
        (GroupChildren.cons cname cdata rest) pid extra
        = import_children ck
            (import_group_recursive ck db stats cname cdata (some pid) extra).1
            (import_group_recursive ck db stats cname cdata (some pid) extra).2
            rest pid extra := rfl
    rw [hstep]
    refine ⟨namesLe_trans hc.1 hr.1, ?_, ?_, hr.2⟩
    · exact hr.1.2.1 hc.2.1
    · exact DataPresent_mono hr.1 cdata hc.2.2
end

/-- After one full document import, every name the document mentions is
registered (and the name sets only grew). -/
theorem import_document_post (ck : String) :
    ∀ (doc : List (String × GroupData)) (db : Db) (stats : ImportStats),
      NamesLe (dbNames db)
          (dbNames (doc.foldl
            (fun acc g => import_group_recursive ck acc.1 acc.2 g.1 g.2 none [])
            (db, stats)).1)
      ∧ ∀ g ∈ doc,
          g.1 ∈ (dbNames (doc.foldl
            (fun acc g => import_group_recursive ck acc.1 acc.2 g.1 g.2 none [])
            (db, stats)).1).groupNames
          ∧ DataPresent (dbNames (doc.foldl
            (fun acc g => import_group_recursive ck acc.1 acc.2 g.1 g.2 none [])
            (db, stats)).1) g.2 := by
  intro doc
  induction doc with
  | nil => exact fun db stats => ⟨namesLe_refl _, by simp⟩
  | cons g rest ih =>
    intro db stats
    have hg := import_group_recursive_post ck g.2 db stats g.1 none []
    obtain ⟨ihle, ihmem⟩ := ih (import_group_recursive ck db stats g.1 g.2 none []).1
        (import_group_recursive ck db stats g.1 g.2 none []).2
    have hstep : (g :: rest).foldl
        (fun acc x => import_group_recursive ck acc.1 acc.2 x.1 x.2 none [])
        (db, stats)
        = rest.foldl
            (fun acc x => import_group_recursive ck acc.1 acc.2 x.1 x.2 none [])
            ((import_group_recursive ck db stats g.1 g.2 none []).1,
             (import_group_recursive ck db stats g.1 g.2 none []).2) := rfl
    rw [hstep]
    refine ⟨namesLe_trans hg.1 ihle, ?_⟩
    intro g' hg'
    rcases List.mem_cons.mp hg' with h | h
    · subst h
      exact ⟨ihle.2.1 hg.2.1, DataPresent_mono ihle g'.2 hg.2.2⟩
    · exact ihmem g' h

theorem import_host_var_list_run2 (ck : String) (host : HostRow)
    (extra : List String) :
    ∀ (hvs : List (String × YVal)) (db : Db) (stats : ImportStats),
      (∀ kv ∈ hvs, kv.1 ∈ (dbNames db).varKeys) →
      dbNames (import_host_var_list ck db stats host hvs extra).1 = dbNames db
      ∧ sameCreations stats (import_host_var_list ck db stats host hvs extra).2 := by
  intro hvs
  induction hvs with
  | nil => exact fun db stats _ => ⟨rfl, sameCreations_refl _⟩
  | cons kv rest ih =>
    intro db stats hpres
    have hfound := ensure_variable_found_eq db kv.1 stats extra
        (hpres kv (List.mem_cons_self _ _))
    have ha := assign_host_variable_inv ck (ensure_variable db kv.1 stats extra).1
        host (ensure_variable db kv.1 stats extra).2.2 (normalize_value kv.2)
        (ensure_variable db kv.1 stats extra).2.1
    have hstep : import_host_var_list ck db stats host (kv :: rest) extra
        = import_host_var_list ck
            (assign_host_variable ck (ensure_variable db kv.1 stats extra).1 host
              (ensure_variable db kv.1 stats extra).2.2 (normalize_value kv.2)
              (ensure_variable db kv.1 stats extra).2.1).1
            (assign_host_variable ck (ensure_variable db kv.1 stats extra).1 host
              (ensure_variable db kv.1 stats extra).2.2 (normalize_value kv.2)
              (ensure_variable db kv.1 stats extra).2.1).2
            host rest extra := rfl
    rw [hstep]
    have hmid : dbNames (assign_host_variable ck
        (ensure_variable db kv.1 stats extra).1 host
        (ensure_variable db kv.1 stats extra).2.2 (normalize_value kv.2)
        (ensure_variable db kv.1 stats extra).2.1).1 = dbNames db := by
      rw [ha.1, hfound.1]
    obtain ⟨ihn, ihc⟩ := ih _ _ (by
      rw [hmid]
      exact fun kv' hkv' => hpres kv' (List.mem_cons_of_mem _ hkv'))
    constructor
    · rw [ihn, hmid]
    · have hse : sameCreations stats (ensure_variable db kv.1 stats extra).2.1 := by
        rw [hfound.2]
        exact sameCreations_refl _
      exact sameCreations_trans (sameCreations_trans hse ha.2) ihc

theorem import_vars_section_run2 (ck : String) (grp : GroupRow)
    (extra : List String) :
    ∀ (vlist : List (String × YVal)) (db : Db) (stats : ImportStats),
      (∀ kv ∈ vlist, kv.1 ∈ (dbNames db).varKeys) →
      dbNames (import_vars_section ck db stats grp vlist extra).1 = dbNames db
      ∧ sameCreations stats (import_vars_section ck db stats grp vlist extra).2 := by
  intro vlist
  induction vlist with
  | nil => exact fun db stats _ => ⟨rfl, sameCreations_refl _⟩
  | cons kv rest ih =>
    intro db stats hpres
    have hfound := ensure_variable_found_eq db kv.1 stats extra
        (hpres kv (List.mem_cons_self _ _))
    have ha := assign_group_variable_inv ck (ensure_variable db kv.1 stats extra).1
        grp (ensure_variable db kv.1 stats extra).2.2 (normalize_value kv.2)
        (ensure_variable db kv.1 stats extra).2.1
    have hstep : import_vars_section ck db stats grp (kv :: rest) extra
        = import_vars_section ck
            (assign_group_variable ck (ensure_variable db kv.1 stats extra).1 grp
              (ensure_variable db kv.1 stats extra).2.2 (normalize_value kv.2)
              (ensure_variable db kv.1 stats extra).2.1).1
            (assign_group_variable ck (ensure_variable db kv.1 stats extra).1 grp
              (ensure_variable db kv.1 stats extra).2.2 (normalize_value kv.2)
              (ensure_variable db kv.1 stats extra).2.1).2
            grp rest extra := rfl
    rw [hstep]
    have hmid : dbNames (assign_group_variable ck
        (ensure_variable db kv.1 stats extra).1 grp
        (ensure_variable db kv.1 stats extra).2.2 (normalize_value kv.2)
        (ensure_variable db kv.1 stats extra).2.1).1 = dbNames db := by
      rw [ha.1, hfound.1]
    obtain ⟨ihn, ihc⟩ := ih _ _ (by
      rw [hmid]
      exact fun kv' hkv' => hpres kv' (List.mem_cons_of_mem _ hkv'))
    constructor
    · rw [ihn, hmid]
    · have hse : sameCreations stats (ensure_variable db kv.1 stats extra).2.1 := by
        rw [hfound.2]
        exact sameCreations_refl _
      exact sameCreations_trans (sameCreations_trans hse ha.2) ihc

theorem import_hosts_section_run2 (ck : String) (grp : GroupRow)
    (extra : List String) :
    ∀ (hostsData : List (String × List (String × YVal))) (db : Db)
      (stats : ImportStats),
      (∀ h ∈ hostsData, h.1 ∈ (dbNames db).hostNames
        ∧ ∀ kv ∈ h.2, kv.1 ∈ (dbNames db).varKeys) →
      dbNames (import_hosts_section ck db stats grp hostsData extra).1 = dbNames db
      ∧ sameCreations stats (import_hosts_section ck db stats grp hostsData extra).2 := by
  intro hostsData
  induction hostsData with
  | nil => exact fun db stats _ => ⟨rfl, sameCreations_refl _⟩
  | cons h rest ih =>
    intro db stats hpres
    have hfound := ensure_host_found_eq db h.1 stats
        (hpres h (List.mem_cons_self _ _)).1
    have hl := assign_host_to_group_inv (ensure_host db h.1 stats).1
        (ensure_host db h.1 stats).2.2 grp (ensure_host db h.1 stats).2.1
    have hv := import_host_var_list_run2 ck (ensure_host db h.1 stats).2.2 extra h.2
        (assign_host_to_group (ensure_host db h.1 stats).1
          (ensure_host db h.1 stats).2.2 grp (ensure_host db h.1 stats).2.1).1
        (assign_host_to_group (ensure_host db h.1 stats).1
          (ensure_host db h.1 stats).2.2 grp (ensure_host db h.1 stats).2.1).2
        (by
          rw [hl.1, hfound.1]
          exact (hpres h (List.mem_cons_self _ _)).2)
    have hstep : import_hosts_section ck db stats grp (h :: rest) extra
        = import_hosts_section ck
            (import_host_var_list ck
              (assign_host_to_group (ensure_host db h.1 stats).1
                (ensure_host db h.1 stats).2.2 grp (ensure_host db h.1 stats).2.1).1
              (assign_host_to_group (ensure_host db h.1 stats).1
                (ensure_host db h.1 stats).2.2 grp (ensure_host db h.1 stats).2.1).2
              (ensure_host db h.1 stats).2.2 h.2 extra).1
            (import_host_var_list ck
              (assign_host_to_group (ensure_host db h.1 stats).1
                (ensure_host db h.1 stats).2.2 grp (ensure_host db h.1 stats).2.1).1
              (assign_host_to_group (ensure_host db h.1 stats).1
                (ensure_host db h.1 stats).2.2 grp (ensure_host db h.1 stats).2.1).2
              (ensure_host db h.1 stats).2.2 h.2 extra).2
            grp rest extra := rfl
    rw [hstep]
    have hmid : dbNames (import_host_var_list ck
        (assign_host_to_group (ensure_host db h.1 stats).1
          (ensure_host db h.1 stats).2.2 grp (ensure_host db h.1 stats).2.1).1
        (assign_host_to_group (ensure_host db h.1 stats).1
          (ensure_host db h.1 stats).2.2 grp (ensure_host db h.1 stats).2.1).2
        (ensure_host db h.1 stats).2.2 h.2 extra).1 = dbNames db := by
      rw [hv.1, hl.1, hfound.1]
    obtain ⟨ihn, ihc⟩ := ih _ _ (by
      rw [hmid]
      exact fun h' hh' => hpres h' (List.mem_cons_of_mem _ hh'))
    constructor
    · rw [ihn, hmid]
    · have hse : sameCreations stats (ensure_host db h.1 stats).2.1 := by
        rw [hfound.2]
        exact sameCreations_refl _
      exact sameCreations_trans (sameCreations_trans (sameCreations_trans hse hl.2) hv.2) ihc

mutual
/-- Re-importing a document whose names are all registered changes no
name set and creates no host, group or variable. -/
theorem import_group_recursive_run2 (ck : String) :
    ∀ (gd : GroupData) (db : Db) (stats : ImportStats) (groupName : String)
      (parentId : Option Nat) (extra : List String),
      groupName ∈ (dbNames db).groupNames →
      DataPresent (dbNames db) gd →
      dbNames (import_group_recursive ck db stats groupName gd parentId extra).1
          = dbNames db
      ∧ sameCreations stats
          (import_group_recursive ck db stats groupName gd parentId extra).2
  | .mk hostsData varsData childrenData, db, stats, groupName, parentId, extra => by
    intro hg hd
    have he := ensure_group_found_inv db groupName parentId stats hg
    have h2 := import_hosts_section_run2 ck
        (ensure_group db groupName parentId stats).2.2 extra hostsData
        (ensure_group db groupName parentId stats).1
        (ensure_group db groupName parentId stats).2.1
        (by rw [he.1]; exact hd.1)
    have h3 := import_vars_section_run2 ck
        (ensure_group db groupName parentId stats).2.2 extra varsData
        (import_hosts_section ck (ensure_group db groupName parentId stats).1
          (ensure_group db groupName parentId stats).2.1
          (ensure_group db groupName parentId stats).2.2 hostsData extra).1
        (import_hosts_section ck (ensure_group db groupName parentId stats).1
          (ensure_group db groupName parentId stats).2.1
          (ensure_group db groupName parentId stats).2.2 hostsData extra).2
        (by rw [h2.1, he.1]; exact hd.2.1)
    have h4 := import_children_run2 ck childrenData
        (import_vars_section ck
          (import_hosts_section ck (ensure_group db groupName parentId stats).1
            (ensure_group db groupName parentId stats).2.1
            (ensure_group db groupName parentId stats).2.2 hostsData extra).1
          (import_hosts_section ck (ensure_group db groupName parentId stats).1
            (ensure_group db groupName parentId stats).2.1
            (ensure_group db groupName parentId stats).2.2 hostsData extra).2
          (ensure_group db groupName parentId stats).2.2 varsData extra).1
        (import_vars_section ck
          (import_hosts_section ck (ensure_group db groupName parentId stats).1
            (ensure_group db groupName parentId stats).2.1
            (ensure_group db groupName parentId stats).2.2 hostsData extra).1
          (import_hosts_section ck (ensure_group db groupName parentId stats).1
            (ensure_group db groupName parentId stats).2.1
            (ensure_group db groupName parentId stats).2.2 hostsData extra).2
          (ensure_group db groupName parentId stats).2.2 varsData extra).2
        (ensure_group db groupName parentId stats).2.2.id extra
        (by rw [h3.1, h2.1, he.1]; exact hd.2.2)
    have hstep : import_group_recursive ck db stats groupName
        (GroupData.mk hostsData varsData childrenData) parentId extra
        = import_children ck
            (import_vars_section ck
              (import_hosts_section ck (ensure_group db groupName parentId stats).1
                (ensure_group db groupName parentId stats).2.1
                (ensure_group db groupName parentId stats).2.2 hostsData extra).1
              (import_hosts_section ck (ensure_group db groupName parentId stats).1
                (ensure_group db groupName parentId stats).2.1
                (ensure_group db groupName parentId stats).2.2 hostsData extra).2
              (ensure_group db groupName parentId stats).2.2 varsData extra).1
            (import_vars_section ck
              (import_hosts_section ck (ensure_group db groupName parentId stats).1
                (ensure_group db groupName parentId stats).2.1
                (ensure_group db groupName parentId stats).2.2 hostsData extra).1
              (import_hosts_section ck (ensure_group db groupName parentId stats).1
                (ensure_group db groupName parentId stats).2.1
                (ensure_group db groupName parentId stats).2.2 hostsData extra).2
              (ensure_group db groupName parentId stats).2.2 varsData extra).2
            childrenData (ensure_group db groupName parentId stats).2.2.id extra := rfl
    rw [hstep]
    constructor
    · rw [h4.1, h3.1, h2.1, he.1]
    · have hse : sameCreations stats (ensure_group db groupName parentId stats).2.1 := by
        rw [he.2]
        exact sameCreations_refl _
      exact sameCreations_trans (sameCreations_trans (sameCreations_trans hse h2.2) h3.2) h4.2

theorem import_children_run2 (ck : String) :
    ∀ (chd : GroupChildren) (db : Db) (stats : ImportStats) (pid : Nat)
      (extra : List String),
      ChildrenPresent (dbNames db) chd →
      dbNames (import_children ck db stats chd pid extra).1 = dbNames db
      ∧ sameCreations stats (import_children ck db stats chd pid extra).2
  | .nil, db, stats, pid, extra => fun _ => ⟨rfl, sameCreations_refl _⟩
  | .cons cname cdata rest, db, stats, pid, extra => by
    intro hp
    have hc := import_group_recursive_run2 ck cdata db stats cname (some pid) extra
        hp.1 hp.2.1
    have hr := import_children_run2 ck rest
        (import_group_recursive ck db stats cname cdata (some pid) extra).1
        (import_group_recursive ck db stats cname cdata (some pid) extra).2
        pid extra (by rw [hc.1]; exact hp.2.2)
    have hstep : import_children ck db stats
        (GroupChildren.cons cname cdata rest) pid extra
        = import_children ck
            (import_group_recursive ck db stats cname cdata (some pid) extra).1
            (import_group_recursive ck db stats cname cdata (some pid) extra).2
            rest pid extra := rfl
    rw [hstep]
    exact ⟨hr.1.trans hc.1, sameCreations_trans hc.2 hr.2⟩
end

theorem import_document_run2 (ck : String) :
    ∀ (doc : List (String × GroupData)) (db : Db) (stats : ImportStats),
      (∀ g ∈ doc, g.1 ∈ (dbNames db).groupNames ∧ DataPresent (dbNames db) g.2) →
      dbNames (doc.foldl
          (fun acc g => import_group_recursive ck acc.1 acc.2 g.1 g.2 none [])
          (db, stats)).1 = dbNames db
      ∧ sameCreations stats (doc.foldl
          (fun acc g => import_group_recursive ck acc.1 acc.2 g.1 g.2 none [])
          (db, stats)).2 := by
  intro doc
  induction doc with
  | nil => exact fun db stats _ => ⟨rfl, sameCreations_refl _⟩
  | cons g rest ih =>
    intro db stats hpres
    have hg := import_group_recursive_run2 ck g.2 db stats g.1 none []
        (hpres g (List.mem_cons_self _ _)).1 (hpres g (List.mem_cons_self _ _)).2
    obtain ⟨ihn, ihc⟩ := ih (import_group_recursive ck db stats g.1 g.2 none []).1
        (import_group_recursive ck db stats g.1 g.2 none []).2
        (by
          rw [hg.1]
          exact fun g' hg' => hpres g' (List.mem_cons_of_mem _ hg'))
    have hstep : (g :: rest).foldl
        (fun acc x => import_group_recursive ck acc.1 acc.2 x.1 x.2 none [])
        (db, stats)
        = rest.foldl
            (fun acc x => import_group_recursive ck acc.1 acc.2 x.1 x.2 none [])
            ((import_group_recursive ck db stats g.1 g.2 none []).1,
             (import_group_recursive ck db stats g.1 g.2 none []).2) := rfl
    rw [hstep]
    exact ⟨ihn.trans hg.1, sameCreations_trans hg.2 ihc⟩

/-- C3 (amended): re-running an import over the unchanged resulting
database creates no new rows — `hosts_created`, `groups_created` and
`variables_created` are all zero on the second run and the host / group /
variable name sets are unchanged — although the per-value assignment
writes are re-executed (see the counterexample theorem: the set counters
are nonzero, and on sensitive values the encryption is re-run). -/
theorem c3_second_import_creates_nothing (ck : String) (db : Db)
    (doc : List (String × GroupData)) :
    (import_document ck (import_document ck db doc).1 doc).2.hosts_created = 0
    ∧ (import_document ck (import_document ck db doc).1 doc).2.groups_created = 0
    ∧ (import_document ck (import_document ck db doc).1 doc).2.variables_created = 0
    ∧ dbNames (import_document ck (import_document ck db doc).1 doc).1
        = dbNames (import_document ck db doc).1 := by
  have hpost := (import_document_post ck doc db { }).2
  have hrun2 := import_document_run2 ck doc (import_document ck db doc).1 { } hpost
  exact ⟨hrun2.2.1, hrun2.2.2.1, hrun2.2.2.2, hrun2.1⟩

/-- The concrete import document
`{webservers: {hosts: {h2: {ansible_password: s3cret}}}}`. -/
def c3Doc : List (String × GroupData) :=
  [("webservers",
    GroupData.mk [("h2", [("ansible_password", YVal.vStr "s3cret")])] []
      GroupChildren.nil)]

/-- C3 counterexample: on the second run over the unchanged database the
three creation counters are zero, but the import still performs an
assignment write (`host_vars_set = 1`): `assign_host_variable` re-runs,
re-encrypting the sensitive value and flushing — not a pure lookup.  The
claim's "no writes beyond lookups are performed" is false. -/
theorem c3_second_import_still_writes :
    ((import_document "k" (import_document "k" { } c3Doc).1 c3Doc).2.hosts_created = 0
      ∧ (import_document "k" (import_document "k" { } c3Doc).1 c3Doc).2.groups_created = 0
      ∧ (import_document "k" (import_document "k" { } c3Doc).1 c3Doc).2.variables_created = 0)
    ∧ (import_document "k" (import_document "k" { } c3Doc).1 c3Doc).2.host_vars_set = 1 := by
  decide

/-! ## manage/variables.py and the API variable service (C7) -/

/-- The non-sensitivity fields applied by a variable update. -/
def apply_variable_fields (v : VarRow) (description varType defaultValue
    regex : Option String) : VarRow :=
  let v1 := match description with
    | some d => { v with description := some d }
    | none => v
  let v2 := match varType with
    | some t => { v1 with varType := t }
    | none => v1
  let v3 := match defaultValue with
    | some d => { v2 with defaultValue := some d }
    | none => v2
  match regex with
  | some r => { v3 with validationRegex := some r }
  | none => v3

/-- `var_update` (manage/variables.py lines 100-137): resolve the
variable, then apply every supplied field — including a sensitivity
flip — unconditionally, with no check for existing values. -/
def var_update_cli (db : Db) (ref : Nat) (description : Option String)
    (sensitive : Option Bool)
    (varType defaultValue regex : Option String) : Except String Db :=
  match db.vars.find? (fun v => v.id == ref) with
  | none => Except.error "Variable introuvable"
  | some v =>
    let v1 := match description with
      | some d => { v with description := some d }
      | none => v
    let v2 := match sensitive with
      | some b => { v1 with isSensitive := b }
      | none => v1
    let v3 := match varType with
      | some t => { v2 with varType := t }
      | none => v2
    let v4 := match defaultValue with
      | some d => { v3 with defaultValue := some d }
      | none => v3
    let v5 := match regex with
      | some r => { v4 with validationRegex := some r }
      | none => v4
    Except.ok { db with vars := replaceFirst (fun x => x.id == ref) v5 db.vars }

/-- `update_variable` (src/api/app/services/variable.py): when the
supplied sensitivity differs from the stored one and any host- or
group-scoped value references the variable, reject with HTTP 400 before
any field is written. -/
def update_variable_api (db : Db) (vid : Nat) (description : Option String)
    (is_sensitive : Option Bool)
    (varType defaultValue regex : Option String) : Except String Db :=
  match db.vars.find? (fun v => v.id == vid) with
  | none => Except.error "Variable introuvable"
  | some v =>
    match is_sensitive with
    | some b =>
      if b ≠ v.isSensitive then
        if 0 < (db.hostVars.filter (fun r => r.varId == v.id)).length
            ∨ 0 < (db.groupVars.filter (fun r => r.varId == v.id)).length then
          Except.error "Impossible de changer is_sensitive : des valeurs existent deja"
        else
          let nv := apply_variable_fields { v with isSensitive := b } description varType defaultValue regex
          Except.ok { db with vars := replaceFirst (fun x => x.id == vid) nv db.vars }
      else
        let nv := apply_variable_fields v description varType defaultValue regex
        Except.ok { db with vars := replaceFirst (fun x => x.id == vid) nv db.vars }
    | none =>
      let nv := apply_variable_fields v description varType defaultValue regex
      Except.ok { db with vars := replaceFirst (fun x => x.id == vid) nv db.vars }

/-- Database with catalog variable 1 (non-sensitive) referenced by one
host-scoped value. -/
def c7Db : Db :=
  { hosts := [{ id := 2, name := "h" }],
    vars := [{ id := 1, varKey := "db_password" }],
    hostVars := [{ hostId := 2, varId := 1, varValue := some "x" }],
    nextId := 3 }

/-- C7 counterexample: the CLI `var update` path flips the sensitivity
flag of a variable that has an existing host-scoped value — the update is
accepted and persisted, not rejected; the stored row keeps its cleartext
representation, now desynchronized from the flag. -/
theorem c7_cli_var_update_flips_with_values :
    var_update_cli c7Db 1 none (some true) none none none
      = Except.ok { c7Db with
          vars := [{ id := 1, varKey := "db_password", isSensitive := true }] } := by
  rfl

/-- C7 (amended): the API update path (`update_variable`) rejects a
sensitivity flip before any write when host- or group-scoped values
reference the variable; the CLI `var_update` applies the flip
unconditionally (see the counterexample theorem). -/
theorem c7_api_update_variable_rejects_flip (db : Db) (vid : Nat)
    (v : VarRow) (b : Bool) (d t dv r : Option String)
    (hfind : db.vars.find? (fun x => x.id == vid) = some v)
    (hb : b ≠ v.isSensitive)
    (hvals : 0 < (db.hostVars.filter (fun x => x.varId == v.id)).length
      ∨ 0 < (db.groupVars.filter (fun x => x.varId == v.id)).length) :
    update_variable_api db vid d (some b) t dv r
      = Except.error "Impossible de changer is_sensitive : des valeurs existent deja" := by
  unfold update_variable_api
  rw [hfind]
  dsimp only
  rw [if_pos hb, if_pos hvals]

theorem c7_api_update_variable_rejects_flip_witness :
    update_variable_api c7Db 1 none (some true) none none none
      = Except.error "Impossible de changer is_sensitive : des valeurs existent deja" :=
  c7_api_update_variable_rejects_flip c7Db 1
    { id := 1, varKey := "db_password" } true none none none none
    (by decide) (by decide) (by decide)

/-! ## manage/groups.py : parent assignment (C8) -/

/-- The parent-assignment branch of `group_update` (manage/groups.py
lines 305-311): resolve the group and the new parent, reject only a
direct self-parent, then persist the link — no ancestry walk. -/
def group_update_parent (db : Db) (ref pid : Nat) : Except String Db :=
  match db.groups.find? (fun g => g.id == ref) with
  | none => Except.error "Groupe introuvable"
  | some grp =>
    match db.groups.find? (fun g => g.id == pid) with
    | none => Except.error "Groupe introuvable"
    | some parent =>
      if parent.id = grp.id then
        Except.error "Un groupe ne peut pas etre son propre parent."
      else
        let g' := { grp with parentId := some parent.id }
        Except.ok { db with groups := replaceFirst (fun x => x.id == ref) g' db.groups }

/-- The persisted parent chain of a group (the walk of
`_collect_parent_group_ids`, manage/groups.py lines 123-130); `fuel`
bounds the loop, which in Python runs forever on a cyclic chain. -/
def parent_chain (db : Db) : Nat → Nat → List Nat
  | 0, _ => []
  | fuel + 1, gid =>
    match db.groups.find? (fun g => g.id == gid) with
    | none => []
    | some g =>
      match g.parentId with
      | none => []
      | some pid => pid :: parent_chain db fuel pid

def c8Db : Db :=
  { groups := [{ id := 1, name := "a" }, { id := 2, name := "b" }],
    nextId := 3 }

def c8DbA : Db :=
  { groups := [{ id := 1, name := "a" },
               { id := 2, name := "b", parentId := some 1 }],
    nextId := 3 }

def c8DbB : Db :=
  { groups := [{ id := 1, name := "a", parentId := some 2 },
               { id := 2, name := "b", parentId := some 1 }],
    nextId := 3 }

/-- C8 counterexample: two parent assignments, each individually passing
the only check (direct self-parent), are both accepted and persist a
two-cycle — group 1 becomes its own ancestor, so the write-time
validation the claim describes does not exist for longer cycles. -/
theorem c8_group_update_cycle_persisted :
    group_update_parent c8Db 2 1 = Except.ok c8DbA
    ∧ group_update_parent c8DbA 1 2 = Except.ok c8DbB
    ∧ 1 ∈ parent_chain c8DbB 2 1 := by
  refine ⟨rfl, rfl, ?_⟩
  decide

/-- C8 (amended): the administrative `group_update` rejects exactly the
direct self-parent assignment; any other parent assignment — including
one closing a longer cycle — is persisted unchecked, and the import
upsert `ensure_group` applies the supplied parent unconditionally, with
no rejection path at all. -/
theorem c8_parent_assignment_only_self_checked (db : Db) (ref pid : Nat)
    (grp parent : GroupRow)
    (hg : db.groups.find? (fun g => g.id == ref) = some grp)
    (hp : db.groups.find? (fun g => g.id == pid) = some parent) :
    (parent.id = grp.id →
      group_update_parent db ref pid
        = Except.error "Un groupe ne peut pas etre son propre parent.")
    ∧ (parent.id ≠ grp.id →
      group_update_parent db ref pid
        = Except.ok { db with groups := replaceFirst (fun x => x.id == ref) { grp with parentId := some parent.id } db.groups })
    ∧ (∀ (n : String) (pid' : Nat) (stats : ImportStats),
        ((ensure_group db n (some pid') stats).2.2).parentId = some pid') := by
  refine ⟨?_, ?_, ?_⟩
  · intro h
    unfold group_update_parent
    rw [hg, hp]
    dsimp only
    rw [if_pos h]
  · intro h
    unfold group_update_parent
    rw [hg, hp]
    dsimp only
    rw [if_neg h]
  · intro n pid' stats0
    unfold ensure_group
    cases hf : db.groups.find? (fun g => g.name == n) with
    | none => rfl
    | some g =>
      dsimp only
      by_cases hne : g.parentId ≠ some pid'
      · rw [if_pos hne]
      · rw [if_neg hne]
        exact not_not.mp hne

theorem c8_parent_assignment_only_self_checked_witness :
    (((2 : Nat) = 2 →
      group_update_parent c8Db 2 2
        = Except.error "Un groupe ne peut pas etre son propre parent.")
    ∧ ((2 : Nat) ≠ 1 →
      group_update_parent c8Db 2 1
        = Except.ok { c8Db with groups := replaceFirst (fun x => x.id == 2) { id := 2, name := "b", parentId := some 1 } c8Db.groups })) := by
  constructor
  · intro h
    exact (c8_parent_assignment_only_self_checked c8Db 2 2
      { id := 2, name := "b" } { id := 2, name := "b" }
      (by decide) (by decide)).1 rfl
  · intro h
    exact (c8_parent_assignment_only_self_checked c8Db 2 1
      { id := 2, name := "b" } { id := 1, name := "a" }
      (by decide) (by decide)).2.1 (by decide)

/-! ## builder.py : the full inventory build (C9, C10) -/

/-- `InventoryBuilder.load_aliases` (builder.py lines 42-61): one dict
entry per alias row whose two variable ids resolve. -/
def load_aliases (db : Db) : VMap String :=
  db.varAliases.foldl
    (fun acc ar =>
      match db.vars.find? (fun v => v.id == ar.aliasVarId),
            db.vars.find? (fun v => v.id == ar.sourceVarId) with
      | some av, some sv => vmInsert acc av.varKey sv.varKey
      | _, _ => acc)
    []

/-- `InventoryBuilder.load_group_variables` (builder.py lines 104-134):
decrypt when the catalog entry is sensitive and a blob is present, else
take the cleartext column (possibly NULL). -/
def load_group_variables (ck : String) (db : Db) (gid : Nat) : VMap (Option String) :=
  (db.groupVars.filter (fun gv => gv.groupId == gid)).foldl
    (fun acc gv =>
      match db.vars.find? (fun v => v.id == gv.varId) with
      | none => acc
      | some v =>
        let value := if v.isSensitive && gv.varValueEncrypted.isSome then
            decrypt_value ck gv.varValueEncrypted
          else gv.varValue
        vmInsert acc v.varKey value)
    []

/-- `InventoryBuilder.load_host_variables` (builder.py lines 165-193). -/
def load_host_variables (ck : String) (db : Db) (hid : Nat) : VMap (Option String) :=
  (db.hostVars.filter (fun hv => hv.hostId == hid)).foldl
    (fun acc hv =>
      match db.vars.find? (fun v => v.id == hv.varId) with
      | none => acc
      | some v =>
        let value := if v.isSensitive && hv.varValueEncrypted.isSome then
            decrypt_value ck hv.varValueEncrypted
          else hv.varValue
        vmInsert acc v.varKey value)
    []

/-- `InventoryBuilder.build_group_tree` (builder.py lines 82-102):
first pass adds every persisted group, second pass attaches each
group's local variables. -/
def build_group_tree (ck : String) (db : Db) : GroupTree :=
  let t1 := db.groups.foldl (fun t g => add_group t g.id g.name g.parentId) { }
  db.groups.foldl (fun t g => set_variables t g.id (load_group_variables ck db g.id)) t1

/-- `InventoryBuilder.load_hosts` (builder.py lines 136-163): for every
active host, register it on each group it belongs to and store its
alias-resolved variables under `_meta.hostvars`. -/
def load_hosts (ck : String) (db : Db) (aliases : VMap String)
    (t : GroupTree) : GroupTree × VMap (VMap (Option String)) :=
  (db.hosts.filter (fun h => h.isActive)).foldl
    (fun acc h =>
      let t1 := (db.hostGroups.filter (fun hg => hg.hostId == h.id)).foldl
        (fun t hg =>
          match db.groups.find? (fun g => g.id == hg.groupId) with
          | none => t
          | some g => map_node t g.id
              (fun n => { n with hosts := if h.name ∈ n.hosts then n.hosts else n.hosts ++ [h.name] }))
        acc.1
      let hv := resolve_aliases aliases (load_host_variables ck db h.id)
      (t1, vmInsert acc.2 h.name hv))
    (t, [])

/-- An entry of the exported inventory dict: the reserved `_meta`
section, or a per-group section whose three keys are present only when
non-empty. -/
inductive InvEntry where
  | meta (hostvars : VMap (VMap (Option String)))
  | group (hosts : Option (List String)) (children : Option (List String))
      (gvars : Option (VMap (Option String)))
deriving DecidableEq

/-- Python's `sorted` on strings (stable insertion sort, ascending). -/
def insertSorted (x : String) : List String → List String
  | [] => [x]
  | y :: rest => if x ≤ y then x :: y :: rest else y :: insertSorted x rest

def sortStrings (l : List String) : List String :=
  l.foldr insertSorted []

/-- `GroupTree.traverse_postorder` (graph.py lines 175-197): children
before parent; `fuel` bounds the recursion depth (in a tree built by
`add_group` a child is always registered after its parent, so the node
count suffices). -/
def traverse_postorder (t : GroupTree) : Nat → GroupNode → List GroupNode
  | 0, _ => []
  | fuel + 1, node =>
    ((node.children.filterMap (find_node t)).bind (traverse_postorder t fuel))
      ++ [node]

/-- The traversal entry point with `node=None`: start at the root. -/
def traverse_postorder_root (t : GroupTree) (fuel : Nat) : List GroupNode :=
  match t.root with
  | none => []
  | some rid =>
    match find_node t rid with
    | none => []
    | some r => traverse_postorder t fuel r

/-- The per-group section written by `build_inventory_structure`
(builder.py lines 195-221). -/
def inv_entry_of (aliases : VMap String) (t : GroupTree)
    (node : GroupNode) : InvEntry :=
  InvEntry.group
    (if node.hosts ≠ [] then some (sortStrings node.hosts) else none)
    (if node.children ≠ [] then
        some (sortStrings ((node.children.filterMap (find_node t)).map GroupNode.name))
      else none)
    (if node.vars ≠ [] then
        (let rv := resolve_aliases aliases node.vars
         if rv ≠ [] then some rv else none)
      else none)

/-- `InventoryBuilder.build_inventory_structure` (builder.py lines
195-221): one inventory entry per traversed node. -/
def build_inventory_structure (aliases : VMap String) (t : GroupTree)
    (fuel : Nat) (inv : VMap InvEntry) : VMap InvEntry :=
  (traverse_postorder_root t fuel).foldl
    (fun acc node => vmInsert acc node.name (inv_entry_of aliases t node))
    inv

/-- `InventoryBuilder.cleanup_inventory` (builder.py lines 223-245):
keep `_meta`; drop any group entry whose three sections are all absent
(they are present exactly when non-empty). -/
def cleanup_inventory (inv : VMap InvEntry) : VMap InvEntry :=
  inv.filter
    (fun q =>
      if q.1 == "_meta" then true
      else
        match q.2 with
        | InvEntry.meta _ => true
        | InvEntry.group h c v => !(h.isNone && c.isNone && v.isNone))

/-- `InventoryBuilder.build` (builder.py lines 247-269). -/
def build (ck : String) (db : Db) : VMap InvEntry :=
  let aliases := load_aliases db
  let t := build_group_tree ck db
  let lh := load_hosts ck db aliases t
  let inv0 : VMap InvEntry := [("_meta", InvEntry.meta lh.2)]
  cleanup_inventory
    (build_inventory_structure aliases lh.1 (lh.1.nodes.length + 1) inv0)

/-- `InventoryBuilder.get_host_vars` (builder.py lines 271-281):
`self.inventory["_meta"]["hostvars"].get(hostname, {})`.  The fallback
arm models the out-of-band case where a group named `_meta` overwrote
the meta entry (Python would raise KeyError there); the theorems assume
an intact meta entry. -/
def get_host_vars (inv : VMap InvEntry) (hostname : String) : VMap (Option String) :=
  match vmLookup "_meta" inv with
  | some (InvEntry.meta m) => (vmLookup hostname m).getD []
  | _ => []

/-- The hostvars mapping read by the service's membership test,
`inventory.get("_meta", {}).get("hostvars", {})`. -/
def meta_hostvars (inv : VMap InvEntry) : VMap (VMap (Option String)) :=
  match vmLookup "_meta" inv with
  | some (InvEntry.meta m) => m
  | _ => []

/-- `get_host_vars` of the inventory service
(src/ansibase-api/app/services/inventory.py lines 25-35): build, fetch
the host's variables, and raise 404 when they are empty AND the host
name is absent from the snapshot's hostvars. -/
def service_get_host_vars (ck : String) (db : Db) (hostname : String) :
    Except String (VMap (Option String)) :=
  let inventory := build ck db
  let hostvars := get_host_vars inventory hostname
  if hostvars.isEmpty && !(vmContains hostname (meta_hostvars inventory)) then
    Except.error ("Hote '" ++ hostname ++ "' introuvable dans l'inventaire")
  else
    Except.ok hostvars

/-- C9: for every hostname absent from the resolved snapshot's hostvars
(the `_meta.hostvars` mapping of the built inventory), the inventory
service's `get_host_vars` signals a not-found failure (HTTP 404) to the
caller instead of returning a default value. -/
theorem c9_get_host_vars_not_found (ck : String) (db : Db) (hostname : String)
    (m : VMap (VMap (Option String)))
    (hmeta : vmLookup "_meta" (build ck db) = some (InvEntry.meta m))
    (habs : vmContains hostname m = false) :
    service_get_host_vars ck db hostname
      = Except.error ("Hote '" ++ hostname ++ "' introuvable dans l'inventaire") := by
  have hnone : vmLookup hostname m = none := by
    unfold vmContains at habs
    cases hl : vmLookup hostname m with
    | none => rfl
    | some v => rw [hl] at habs; simp at habs
  simp [service_get_host_vars, get_host_vars, meta_hostvars, hmeta, hnone, habs]

theorem c9_get_host_vars_not_found_witness :
    service_get_host_vars "k" { } "h1"
      = Except.error ("Hote '" ++ "h1" ++ "' introuvable dans l'inventaire") :=
  c9_get_host_vars_not_found "k" { } "h1" [] (by decide) (by decide)

/-- Reachability from the tree root (the node registered under the name
"all") along `children` links. -/
inductive Reach (t : GroupTree) : GroupNode → Prop where
  | root (rid : Nat) (n : GroupNode) :
      t.root = some rid → find_node t rid = some n → Reach t n
  | child (p : GroupNode) (cid : Nat) (c : GroupNode) :
      Reach t p → cid ∈ p.children → find_node t cid = some c → Reach t c

theorem mem_vmKeys_insert {α : Type} {m : VMap α} {k k' : String} {v : α}
    (h : k' ∈ vmKeys (vmInsert m k v)) : k' ∈ vmKeys m ∨ k' = k := by
  unfold vmInsert at h
  by_cases hc : vmContains k m = true
  · rw [if_pos hc] at h
    simp only [vmKeys, List.mem_map] at h
    obtain ⟨q, hq, hqk⟩ := h
    obtain ⟨q0, hq0, hfq⟩ := hq
    by_cases hq0k : q0.1 = k
    · right
      rw [← hqk, ← hfq, if_pos hq0k]
    · left
      rw [← hqk, ← hfq, if_neg hq0k]
      exact List.mem_map_of_mem _ hq0
  · rw [if_neg hc] at h
    unfold vmKeys at h
    rw [List.map_append] at h
    rcases List.mem_append.mp h with h | h
    · exact Or.inl h
    · right
      simpa using h

theorem keys_foldl_insert (f : GroupNode → InvEntry) :
    ∀ (ns : List GroupNode) (inv : VMap InvEntry) (k : String),
      k ∈ vmKeys (ns.foldl (fun acc n => vmInsert acc n.name (f n)) inv) →
      k ∈ vmKeys inv ∨ ∃ n ∈ ns, n.name = k := by
  intro ns
  induction ns with
  | nil => exact fun inv k h => Or.inl h
  | cons n rest ih =>
    intro inv k h
    have hstep : (n :: rest).foldl (fun acc x => vmInsert acc x.name (f x)) inv
        = rest.foldl (fun acc x => vmInsert acc x.name (f x))
            (vmInsert inv n.name (f n)) := rfl
    rw [hstep] at h
    rcases ih _ k h with h' | h'
    · rcases mem_vmKeys_insert h' with h'' | h''
      · exact Or.inl h''
      · exact Or.inr ⟨n, List.mem_cons_self _ _, h''.symm⟩
    · obtain ⟨n', hn', hk⟩ := h'
      exact Or.inr ⟨n', List.mem_cons_of_mem _ hn', hk⟩

theorem keys_cleanup {inv : VMap InvEntry} {k : String}
    (h : k ∈ vmKeys (cleanup_inventory inv)) : k ∈ vmKeys inv := by
  unfold cleanup_inventory at h
  simp only [vmKeys, List.mem_map] at h ⊢
  obtain ⟨q, hq, hk⟩ := h
  exact ⟨q, List.mem_of_mem_filter hq, hk⟩

theorem traverse_reach (t : GroupTree) :
    ∀ (fuel : Nat) (n m : GroupNode), Reach t n →
      m ∈ traverse_postorder t fuel n → Reach t m := by
  intro fuel
  induction fuel with
  | zero =>
    intro n m _ hm
    simp [traverse_postorder] at hm
  | succ fuel ih =>
    intro n m hn hm
    simp only [traverse_postorder, List.mem_append, List.mem_singleton] at hm
    rcases hm with hm | hm
    · rw [List.mem_bind] at hm
      obtain ⟨c, hc, hmc⟩ := hm
      rw [List.mem_filterMap] at hc
      obtain ⟨cid, hcid, hfc⟩ := hc
      exact ih c m (Reach.child n cid c hn hcid hfc) hmc
    · rw [hm]
      exact hn

theorem traverse_root_reach (t : GroupTree) (fuel : Nat) :
    ∀ n ∈ traverse_postorder_root t fuel, Reach t n := by
  intro n hn
  unfold traverse_postorder_root at hn
  cases hroot : t.root with
  | none => rw [hroot] at hn; simp at hn
  | some rid =>
    rw [hroot] at hn
    dsimp only at hn
    cases hfind : find_node t rid with
    | none => rw [hfind] at hn; simp at hn
    | some r =>
      rw [hfind] at hn
      exact traverse_reach t fuel r n (Reach.root rid r hroot hfind) hn

theorem build_eq (ck : String) (db : Db) :
    build ck db
      = cleanup_inventory
          (build_inventory_structure (load_aliases db)
            (load_hosts ck db (load_aliases db) (build_group_tree ck db)).1
            ((load_hosts ck db (load_aliases db) (build_group_tree ck db)).1.nodes.length + 1)
            [("_meta", InvEntry.meta
              (load_hosts ck db (load_aliases db) (build_group_tree ck db)).2)]) :=
  rfl

/-- C10: besides "_meta", the export produced by `build` has a top-level
entry only for groups reachable from the node named "all" (the tree
root): any key of the built inventory is "_meta" or the name of a node
reachable from the root of the tree the build traversed.  In particular,
with no "all" group the export contains only "_meta", and a group whose
parent chain never reaches "all" is omitted even when it has hosts,
children or variables. -/
theorem c10_build_keys_reachable (ck : String) (db : Db) (k : String)
    (hk : k ∈ vmKeys (build ck db)) :
    k = "_meta"
    ∨ ∃ n : GroupNode,
        Reach (load_hosts ck db (load_aliases db) (build_group_tree ck db)).1 n
        ∧ n.name = k := by
  rw [build_eq] at hk
  have h1 := keys_cleanup hk
  unfold build_inventory_structure at h1
  have h2 := keys_foldl_insert
      (inv_entry_of (load_aliases db)
        (load_hosts ck db (load_aliases db) (build_group_tree ck db)).1) _ _ _ h1
  rcases h2 with h | h
  · left
    simpa [vmKeys] using h
  · obtain ⟨n, hn, hname⟩ := h
    exact Or.inr ⟨n, traverse_root_reach _ _ n hn, hname⟩

def c10Db : Db :=
  { groups := [{ id := 1, name := "all" },
               { id := 2, name := "web", parentId := some 1 }],
    nextId := 3 }

theorem c10_build_keys_reachable_witness :
    ("all" = "_meta")
    ∨ ∃ n : GroupNode,
        Reach (load_hosts "k" c10Db (load_aliases c10Db) (build_group_tree "k" c10Db)).1 n
        ∧ n.name = "all" :=
  c10_build_keys_reachable "k" c10Db "all" (by decide)
